import Mathlib

/-!
The goruby `object` package: method dispatch and introspection.

A shallow embedding of `object/object.go`, `object/introspect.go`,
`object/symbol.go`, `object/basic_object.go`, `object/nil.go` and
`object/exception.go`, and a model of `require` after its specification.

Conventions of the embedding

* A Go pointer is a natural number (an address). The Symbols and the Array
  that the embedded functions build with `&T{...}` take the next free address
  of the `Store` and bump the allocation counter. Error values are compared by
  content and carry no address.
* The package-level variable `allSymbols` lives in the `Store`; functions that
  allocate or touch it take a `Store` and return the new one.
* A Go result pair `(RubyObject, error)` is a pair of options (`nil` is `none`).
* A Go `map[string]T` is an association list without repeated keys. `range`
  visits the entries in the order of that list; since theorems quantify over
  every such list they cover every iteration order.
* A Go run-time failure (an index out of range, a failed type assertion,
  `reflect` on a nil interface) is the result `none` of an `Option`.
* Machine integers are natural numbers reduced modulo `2^64` where the code
  relies on wrap-around (the FNV-1a hash).
* `RubyMethod` is an interface whose implementations are outside the analysed
  files; it is an abstract type `M` and its two interface methods, together
  with the other package functions that are not in the analysed files, are the
  fields of `Externals`.
-/

set_option autoImplicit false

namespace GoRuby

/-! ## Data model -/

/-- Access level of a method. -/
inductive MethodVisibility where
  | PUBLIC_METHOD
  | PROTECTED_METHOD
  | PRIVATE_METHOD
  deriving DecidableEq, Repr

open MethodVisibility

/-- Go struct `symbol` behind a pointer: `ptr` is the address of the allocation,
`Value` its only field (never mutated after construction). -/
structure symbol where
  ptr : Nat
  Value : String
  deriving DecidableEq, Repr

/-- The Go types that embed `Exception` in `exception.go`. -/
inductive ExceptionType where
  | Exception
  | StandardError
  | ZeroDivisionError
  | ArgumentError
  | NameError
  | NoMethodError
  | TypeError
  deriving DecidableEq, Repr

/-- Go struct `Exception`: `exception` is the self reference (recorded by the
dynamic type it points to, `none` for a nil interface) and `Message` the text. -/
structure Exception where
  exception : Option ExceptionType
  Message : String
  deriving DecidableEq, Repr

/-- A Go `error` value of this package: a pointer to one of the exception
structs, given by its dynamic type and the embedded `Exception` base. -/
structure RubyError where
  kind : ExceptionType
  base : Exception
  deriving DecidableEq, Repr

/-- Modelled from the spec: `NewArgumentError` is not in the analysed files. It
builds an ArgumentError carrying the (already formatted) message, with the self
reference set as every constructor of `exception.go` does. -/
def NewArgumentError (message : String) : RubyError :=
  { kind := ExceptionType.ArgumentError,
    base := { exception := some ExceptionType.ArgumentError, Message := message } }

/-- A method set: Go `map[string]RubyMethod`, an association list whose keys
are pairwise different. -/
structure MethodSet (M : Type) where
  entries : List (String × M)
  unique : (entries.map Prod.fst).Nodup

/-- Point lookup `Get(name)`: the method and `ok`, as an option. -/
def MethodSet.Get {M : Type} (ms : MethodSet M) (name : String) : Option M :=
  ms.entries.lookup name

/-- Bulk retrieval `GetAll()`: the underlying map. -/
def MethodSet.GetAll {M : Type} (ms : MethodSet M) : List (String × M) :=
  ms.entries

/-- A `RubyClass` interface value: `nil`, or a class-like node (class,
eigenclass, mixin) exposing its own method set and its superclass link. -/
inductive RubyClass (M : Type) where
  | nil : RubyClass M
  | mk (name : String) (instanceMethods : MethodSet M) (superClass : RubyClass M) : RubyClass M

/-- Interface method `Methods()`. The code only calls it on a non-nil class; on
`nil` (where Go would fail) the embedding answers with the empty set. -/
def RubyClass.Methods {M : Type} : RubyClass M → MethodSet M
  | RubyClass.nil => ⟨[], List.nodup_nil⟩
  | RubyClass.mk _ instanceMethods _ => instanceMethods

/-- Interface method `SuperClass()`; `nil` for the root. -/
def RubyClass.SuperClass {M : Type} : RubyClass M → RubyClass M
  | RubyClass.nil => RubyClass.nil
  | RubyClass.mk _ _ superClass => superClass

/-- A `RubyObject` interface value. Heap objects carry the address of their
allocation; `NIL`, `TRUE` and `FALSE` are the package singletons. `ofSelf` is a
`*Self`, the wrapper that embeds the wrapped `RubyObject` next to a `Name`. -/
inductive RubyObject (M : Type) where
  | ofSymbol (s : symbol) : RubyObject M
  | ofString (ptr : Nat) (Value : String) : RubyObject M
  | ofInteger (ptr : Nat) (Value : Int) : RubyObject M
  | ofBoolean (Value : Bool) : RubyObject M
  | nilObject : RubyObject M
  | ofArray (ptr : Nat) (Elements : List (RubyObject M)) : RubyObject M
  | basicObject (ptr : Nat) : RubyObject M
  | Object (ptr : Nat) : RubyObject M
  | classInstance (ptr : Nat) (class_ : RubyClass M) : RubyObject M
  | ofSelf (ptr : Nat) (inner : RubyObject M) (Name : String) : RubyObject M

/-- The singleton `NIL`. -/
def NIL {M : Type} : RubyObject M := RubyObject.nilObject

/-- The singleton `TRUE`. -/
def TRUE {M : Type} : RubyObject M := RubyObject.ofBoolean true

/-- The singleton `FALSE`. -/
def FALSE {M : Type} : RubyObject M := RubyObject.ofBoolean false

/-- Go struct `Array` behind a pointer. -/
structure Array (M : Type) where
  ptr : Nat
  Elements : List (RubyObject M)

/-- A call context; only `Receiver()` is used by the analysed code. -/
structure CallContext (M : Type) where
  receiver : RubyObject M

/-- Interface method `Receiver()`. -/
def CallContext.Receiver {M : Type} (context : CallContext M) : RubyObject M :=
  context.receiver

/-- Process-wide mutable state: the allocation counter and the intern table
`allSymbols` (a `map[string]*symbol`). -/
structure Store where
  nextPtr : Nat
  allSymbols : List (String × symbol)
  deriving DecidableEq, Repr

/-- Allocation: the fresh address and the store after it. -/
def Store.alloc (st : Store) : Nat × Store :=
  (st.nextPtr, { st with nextPtr := st.nextPtr + 1 })

/-- A Go result pair `(RubyObject, error)`. -/
abbrev Result (M : Type) := Option (RubyObject M) × Option RubyError

/-- The parts of package `object` that the analysed functions use and that are
not in the analysed files: the two methods of the `RubyMethod` interface, the
helpers `stringify`, `methodMissing` and `Send`, the class globals (built with
`newClass` and `newMixin`), `Class()` and `Inspect()` of the value kinds defined
elsewhere, and `Inspect()` of a class-like node seen as a `RubyObject`. -/
structure Externals (M : Type) where
  Visibility : M → MethodVisibility
  Call : M → Store → CallContext M → List (RubyObject M) → Result M × Store
  stringify : RubyObject M → Except RubyError String
  methodMissing : Store → CallContext M → List (RubyObject M) → Result M × Store
  Send : Store → CallContext M → String → List (RubyObject M) → Result M × Store
  symbolClass : RubyClass M
  nilClass : RubyClass M
  basicObjectClass : RubyClass M
  objectClass : RubyClass M
  valueClass : RubyObject M → RubyClass M
  valueInspect : RubyObject M → String
  classInspect : RubyClass M → String

/-- Interface method `Class()` of each object kind; a `*Self` answers with the
promoted method of the object it embeds. -/
def Class {M : Type} (d : Externals M) : RubyObject M → RubyClass M
  | RubyObject.ofSymbol _ => d.symbolClass
  | RubyObject.nilObject => d.nilClass
  | RubyObject.basicObject _ => d.basicObjectClass
  | RubyObject.Object _ => d.objectClass
  | RubyObject.classInstance _ class_ => class_
  | RubyObject.ofSelf _ inner _ => Class d inner
  | o => d.valueClass o

/-! ## `object.go` -/

/-- The lookup loop of `objectSend`: walk the superclass links from `class`
until a class has `method` in its method set; the class at which the loop
stopped and the method found, or `none` when the loop ran off the chain. -/
def objectSend.search {M : Type} (method : String) : RubyClass M → Option (RubyClass M × M)
  | RubyClass.nil => none
  | RubyClass.mk name instanceMethods superClass =>
    match instanceMethods.Get method with
    | none => objectSend.search method superClass
    | some fn => some (RubyClass.mk name instanceMethods superClass, fn)

/-- Function `objectSend` (`send`). -/
def objectSend {M : Type} (d : Externals M) (st : Store) (context : CallContext M)
    (args : List (RubyObject M)) : Result M × Store :=
  match args with
  | [] =>
    ((none, some (NewArgumentError "wrong number of arguments (given 0, expected at least 1)")), st)
  | arg0 :: _ =>
    match d.stringify arg0 with
    | Except.error err => ((none, some err), st)
    | Except.ok method =>
      let receiver := context.Receiver
      let class_ := Class d receiver
      match objectSend.search method class_ with
      | some (_, fn) => d.Call fn st context args
      | none =>
        let (p, st1) := st.alloc
        let methodMissingArgs := RubyObject.ofSymbol ⟨p, method⟩ :: args
        d.methodMissing st1 context methodMissingArgs

/-- Function `objectPublicSend` (`public_send`). -/
def objectPublicSend {M : Type} (d : Externals M) (st : Store) (context : CallContext M)
    (args : List (RubyObject M)) : Result M × Store :=
  match args with
  | [] =>
    ((none, some (NewArgumentError "wrong number of arguments (given 0, expected at least 1)")), st)
  | arg0 :: rest =>
    match d.stringify arg0 with
    | Except.error err => ((none, some err), st)
    | Except.ok method => d.Send st context method rest

/-- The lookup loop of `objectRespondTo`, written as in `objectSend`. -/
def objectRespondTo.search {M : Type} (method : String) : RubyClass M → Option (RubyClass M × M)
  | RubyClass.nil => none
  | RubyClass.mk name instanceMethods superClass =>
    match instanceMethods.Get method with
    | none => objectRespondTo.search method superClass
    | some fn => some (RubyClass.mk name instanceMethods superClass, fn)

/-- The body of `objectRespondTo` after argument checking. -/
def objectRespondTo.lookup {M : Type} (d : Externals M) (context : CallContext M)
    (method : String) (includeAll : Bool) : Result M :=
  let receiver := context.Receiver
  let class_ := Class d receiver
  match objectRespondTo.search method class_ with
  | none => (some FALSE, none)
  | some (_, fn) =>
    if (d.Visibility fn = PRIVATE_METHOD ∨ d.Visibility fn = PROTECTED_METHOD) ∧ ¬ includeAll = true then
      (some FALSE, none)
    else
      (some TRUE, none)

/-- Function `objectRespondTo` (`respond_to?`). -/
def objectRespondTo {M : Type} (d : Externals M) (context : CallContext M)
    (args : List (RubyObject M)) : Result M :=
  if args.length < 1 then
    (none, some (NewArgumentError "wrong number of arguments (given 0, expected at least 1)"))
  else if args.length > 2 then
    (none, some (NewArgumentError
      ("wrong number of arguments (given " ++ toString args.length ++ ", expected at most 2)")))
  else
    match args with
    | [] => (none, some (NewArgumentError "wrong number of arguments (given 0, expected at least 1)"))
    | arg0 :: rest =>
      match d.stringify arg0 with
      | Except.error err => (none, some err)
      | Except.ok method =>
        match rest with
        | [arg1] =>
          match arg1 with
          | RubyObject.ofBoolean includeAll => objectRespondTo.lookup d context method includeAll
          | _ => (none, some (NewArgumentError "include_all: wrong argument type (expected Boolean)"))
        | _ => objectRespondTo.lookup d context method false

/-! ## `introspect.go` -/

/-- The inner loop of `getMethods`, `for meth, fn := range methods`, over the
entries in iteration order. The loop state is the store, the slice
`methodSymbols` and the keys of `set` that are mapped to `true`. -/
def getMethods.range {M : Type} (d : Externals M) (visibility : MethodVisibility) :
    List (String × M) → Store × List (RubyObject M) × List String →
    Store × List (RubyObject M) × List String
  | [], acc => acc
  | (meth, fn) :: rest, (st, methodSymbols, set) =>
    if d.Visibility fn = visibility ∧ meth ∉ set then
      let (p, st1) := st.alloc
      getMethods.range d visibility rest
        (st1, methodSymbols ++ [RubyObject.ofSymbol ⟨p, meth⟩], meth :: set)
    else
      getMethods.range d visibility rest (st, methodSymbols, set)

/-- The outer loop of `getMethods`, `for class != nil`. -/
def getMethods.loop {M : Type} (d : Externals M) (visibility : MethodVisibility)
    (addSuperMethods : Bool) :
    RubyClass M → Store × List (RubyObject M) × List String →
    Store × List (RubyObject M) × List String
  | RubyClass.nil, acc => acc
  | RubyClass.mk _ instanceMethods superClass, acc =>
    let methods := instanceMethods.GetAll
    let acc1 := getMethods.range d visibility methods acc
    if !addSuperMethods then acc1
    else getMethods.loop d visibility addSuperMethods superClass acc1

/-- Function `getMethods`. -/
def getMethods {M : Type} (d : Externals M) (st : Store) (class_ : RubyClass M)
    (visibility : MethodVisibility) (addSuperMethods : Bool) : Array M × Store :=
  let (st1, methodSymbols, _) :=
    getMethods.loop d visibility addSuperMethods class_ (st, [], [])
  let (p, st2) := st1.alloc
  (⟨p, methodSymbols⟩, st2)

/-! ## `symbol.go` -/

/-- Function `NewSymbol`: the interned symbol for `value`, created on first
request. -/
def NewSymbol (st : Store) (value : String) : symbol × Store :=
  match st.allSymbols.lookup value with
  | some s => (s, st)
  | none =>
    let (p, st1) := st.alloc
    let s : symbol := ⟨p, value⟩
    (s, { st1 with allSymbols := (value, s) :: st1.allSymbols })

/-! ## `basic_object.go` -/

/-- Go `==` on two `RubyObject` interface values holding pointers: the same
dynamic type and the same address. -/
def sameObject {M : Type} : RubyObject M → RubyObject M → Bool
  | RubyObject.ofSymbol a, RubyObject.ofSymbol b => a.ptr == b.ptr
  | RubyObject.ofString p _, RubyObject.ofString q _ => p == q
  | RubyObject.ofInteger p _, RubyObject.ofInteger q _ => p == q
  | RubyObject.ofBoolean a, RubyObject.ofBoolean b => a == b
  | RubyObject.nilObject, RubyObject.nilObject => true
  | RubyObject.ofArray p _, RubyObject.ofArray q _ => p == q
  | RubyObject.basicObject p, RubyObject.basicObject q => p == q
  | RubyObject.Object p, RubyObject.Object q => p == q
  | RubyObject.classInstance p _, RubyObject.classInstance q _ => p == q
  | RubyObject.ofSelf p _ _, RubyObject.ofSelf q _ _ => p == q
  | _, _ => false

/-- Function `basicObjectEqual` (`==`, `equal?`). `none` stands for the Go
run-time failure of `args[0]` on an empty argument list. -/
def basicObjectEqual {M : Type} (context : CallContext M) (args : List (RubyObject M)) :
    Option (Result M) :=
  match args with
  | [] => none
  | arg0 :: _ =>
    if sameObject context.Receiver arg0 then some (some TRUE, none)
    else some (some FALSE, none)

/-- Function `rubyEqual`: the type switch compares the `Value` fields when both
operands are Symbols, both Strings or both Integers; every other pair falls
through to the interface comparison `obj1 == obj2`. -/
def rubyEqual {M : Type} (obj1 obj2 : RubyObject M) : Bool :=
  let structural : Option Bool :=
    match obj1 with
    | RubyObject.ofSymbol s1 =>
      match obj2 with
      | RubyObject.ofSymbol s2 => some (s1.Value == s2.Value)
      | _ => none
    | RubyObject.ofString _ v1 =>
      match obj2 with
      | RubyObject.ofString _ v2 => some (v1 == v2)
      | _ => none
    | RubyObject.ofInteger _ v1 =>
      match obj2 with
      | RubyObject.ofInteger _ v2 => some (v1 == v2)
      | _ => none
    | _ => none
  match structural with
  | some r => r
  | none => if sameObject obj1 obj2 then true else false

/-- Function `rbEqual`. `none` stands for the Go run-time failure of `args[0]`
on an empty argument list. -/
def rbEqual {M : Type} (context : CallContext M) (args : List (RubyObject M)) :
    Option (Result M) :=
  match args with
  | [] => none
  | arg0 :: _ =>
    if rubyEqual context.Receiver arg0 then some (some TRUE, none)
    else some (some FALSE, none)

/-- The Go functions that the method tables of the analysed files bind. -/
inductive GoFunc where
  | basicObjectInitialize
  | basicObjectMethodMissing
  | basicObjectEqual
  | basicObjectNot
  | basicObjectNotEqual
  | dummyObj
  | notImplemented
  | nilIsNil
  | objectSend
  | objectPublicSend
  | objectRespondTo
  | symbolToS
  | symbolAllSymbols
  deriving DecidableEq, Repr

/-- A built-in method as the table of `basic_object.go` declares it: the
implementing function, the visibility and the optional fixed arity. -/
structure BuiltinMethod where
  visibility : MethodVisibility
  arity : Option Nat
  fn : GoFunc
  deriving DecidableEq, Repr

/-- Modelled from the spec: `publicMethod` is not in the analysed files; it
wraps a function into a method of public visibility without fixed arity. -/
def publicMethod (fn : GoFunc) : BuiltinMethod := ⟨PUBLIC_METHOD, none, fn⟩

/-- Modelled from the spec: `privateMethod` is not in the analysed files; it
wraps a function into a method of private visibility without fixed arity. -/
def privateMethod (fn : GoFunc) : BuiltinMethod := ⟨PRIVATE_METHOD, none, fn⟩

/-- Modelled from the spec: `withArity` is not in the analysed files; it adds
a fixed arity to a method. -/
def withArity (arity : Nat) (m : BuiltinMethod) : BuiltinMethod := { m with arity := some arity }

/-- Variable `basicObjectMethods`. -/
def basicObjectMethods : List (String × BuiltinMethod) :=
  [("initialize", privateMethod GoFunc.basicObjectInitialize),
   ("method_missing", privateMethod GoFunc.basicObjectMethodMissing),
   ("==", withArity 1 (publicMethod GoFunc.basicObjectEqual)),
   ("equal?", withArity 1 (publicMethod GoFunc.basicObjectEqual)),
   ("!", withArity 0 (publicMethod GoFunc.basicObjectNot)),
   ("!=", withArity 1 (publicMethod GoFunc.basicObjectNotEqual)),
   ("singleton_method_added", withArity 1 (privateMethod GoFunc.dummyObj)),
   ("singleton_method_removed", withArity 1 (privateMethod GoFunc.dummyObj)),
   ("singleton_method_undefined", withArity 1 (privateMethod GoFunc.dummyObj))]

/-- Method `Inspect()` of each object kind. -/
def Inspect {M : Type} (d : Externals M) : RubyObject M → String
  | RubyObject.ofSymbol s => ":" ++ s.Value
  | RubyObject.nilObject => "nil"
  | RubyObject.basicObject _ => ""
  | RubyObject.Object _ => ""
  | RubyObject.ofSelf _ inner _ => Inspect d inner
  | o => d.valueInspect o

/-! ## `exception.go` -/

/-- The name of an exception struct type, `reflect.TypeOf(x).Elem().Name()`. -/
def ExceptionType.Name : ExceptionType → String
  | ExceptionType.Exception => "Exception"
  | ExceptionType.StandardError => "StandardError"
  | ExceptionType.ZeroDivisionError => "ZeroDivisionError"
  | ExceptionType.ArgumentError => "ArgumentError"
  | ExceptionType.NameError => "NameError"
  | ExceptionType.NoMethodError => "NoMethodError"
  | ExceptionType.TypeError => "TypeError"

/-- Method `Inspect()` of `Exception`, promoted to every exception struct.
`none` stands for the Go run-time failure of `reflect.TypeOf(nil).Elem()` when
the self reference was never set. -/
def Exception.Inspect (e : Exception) : Option String :=
  match e.exception with
  | none => none
  | some t => some (t.Name ++ ": " ++ e.Message)

/-- `Inspect()` called on an error value. -/
def RubyError.Inspect (e : RubyError) : Option String :=
  e.base.Inspect

/-- The struct types behind the pointers held by `RubyObject` values. -/
inductive GoType where
  | ptrSymbol
  | ptrString
  | ptrInteger
  | ptrBoolean
  | ptrNilObject
  | ptrArray
  | ptrBasicObject
  | ptrObject
  | ptrClassInstance
  | ptrSelf
  deriving DecidableEq, Repr

/-- The struct name `reflect.TypeOf(x).Elem().Name()` of a pointer type. -/
def GoType.Name : GoType → String
  | GoType.ptrSymbol => "symbol"
  | GoType.ptrString => "String"
  | GoType.ptrInteger => "Integer"
  | GoType.ptrBoolean => "Boolean"
  | GoType.ptrNilObject => "nilObject"
  | GoType.ptrArray => "Array"
  | GoType.ptrBasicObject => "basicObject"
  | GoType.ptrObject => "Object"
  | GoType.ptrClassInstance => "classInstance"
  | GoType.ptrSelf => "Self"

/-- The dynamic type of a `RubyObject` interface value. -/
def typeOf {M : Type} : RubyObject M → GoType
  | RubyObject.ofSymbol _ => GoType.ptrSymbol
  | RubyObject.ofString _ _ => GoType.ptrString
  | RubyObject.ofInteger _ _ => GoType.ptrInteger
  | RubyObject.ofBoolean _ => GoType.ptrBoolean
  | RubyObject.nilObject => GoType.ptrNilObject
  | RubyObject.ofArray _ _ => GoType.ptrArray
  | RubyObject.basicObject _ => GoType.ptrBasicObject
  | RubyObject.Object _ => GoType.ptrObject
  | RubyObject.classInstance _ _ => GoType.ptrClassInstance
  | RubyObject.ofSelf _ _ _ => GoType.ptrSelf

/-- Function `NewStandardError`. -/
def NewStandardError (message : String) : RubyError :=
  { kind := ExceptionType.StandardError,
    base := { exception := some ExceptionType.StandardError, Message := message } }

/-- Function `NewZeroDivisionError`. -/
def NewZeroDivisionError : RubyError :=
  { kind := ExceptionType.ZeroDivisionError,
    base := { exception := some ExceptionType.ZeroDivisionError, Message := "divided by 0" } }

/-- Function `NewWrongNumberOfArgumentsError`; the format verbs `%d` print the
decimal numerals of `actual` and `expected`, in that order. -/
def NewWrongNumberOfArgumentsError (expected actual : Int) : RubyError :=
  { kind := ExceptionType.ArgumentError,
    base := { exception := some ExceptionType.ArgumentError,
              Message := "wrong number of arguments (given " ++ toString actual ++
                ", expected " ++ toString expected ++ ")" } }

/-- Function `NewNoMethodError`. The type assertion `context.Class().(RubyObject)`
fails at run time on a nil class (`none`); every class-like node is taken to be
a `RubyObject` whose `Inspect()` is `classInspect`. -/
def NewNoMethodError {M : Type} (d : Externals M) (context : RubyObject M) (method : String) :
    Option RubyError :=
  match Class d context with
  | RubyClass.nil => none
  | RubyClass.mk name instanceMethods superClass =>
    some
      { kind := ExceptionType.NoMethodError,
        base := { exception := some ExceptionType.NoMethodError,
                  Message := "undefined method `" ++ method ++ "' for " ++ Inspect d context ++
                    ":" ++ d.classInspect (RubyClass.mk name instanceMethods superClass) } }

/-- Function `NewCoercionTypeError`. Its two arguments are used through
`reflect.TypeOf` only, so the embedding takes their dynamic types. -/
def NewCoercionTypeError (expected actual : GoType) : RubyError :=
  { kind := ExceptionType.TypeError,
    base := { exception := some ExceptionType.TypeError,
              Message := actual.Name ++ " can't be coerced into " ++ expected.Name } }

/-- Function `NewImplicitConversionTypeError`. Its two arguments are used
through `reflect.TypeOf` only, so the embedding takes their dynamic types. -/
def NewImplicitConversionTypeError (expected actual : GoType) : RubyError :=
  { kind := ExceptionType.TypeError,
    base := { exception := some ExceptionType.TypeError,
              Message := "no implicit conversion of " ++ actual.Name ++ " into " ++
                expected.Name } }

/-- Function `basicObjectMethodMissing`. In the conversion-error branch the Go
code passes a nil `*symbol` as `expected`, of which only the type is used.
`none` stands for a Go run-time failure. -/
def basicObjectMethodMissing {M : Type} (d : Externals M) (context : CallContext M)
    (args : List (RubyObject M)) : Option (Result M) :=
  match args with
  | [] => some (none, some (NewWrongNumberOfArgumentsError 1 0))
  | arg0 :: _ =>
    match arg0 with
    | RubyObject.ofSymbol method =>
      match NewNoMethodError d context.Receiver method.Value with
      | some err => some (none, some err)
      | none => none
    | _ => some (none, some (NewImplicitConversionTypeError GoType.ptrSymbol (typeOf arg0)))

/-! ## `symbol.go`, continued -/

/-- The object kind tags returned by `Type()`. -/
inductive ObjectType where
  | SYMBOL_OBJ
  | NIL_OBJ
  | OBJECT_OBJ
  | BASIC_OBJECT_OBJ
  | EXCEPTION_OBJ
  deriving DecidableEq, Repr

/-- Go struct `hashKey`; `Value` is a `uint64`. -/
structure hashKey where
  Type_ : ObjectType
  Value : Nat
  deriving DecidableEq, Repr

/-- The UTF-8 bytes of the character with code point `n`. -/
def utf8EncodeNat (n : Nat) : List Nat :=
  if n < 0x80 then [n]
  else if n < 0x800 then [0xC0 + n / 0x40, 0x80 + n % 0x40]
  else if n < 0x10000 then [0xE0 + n / 0x1000, 0x80 + n / 0x40 % 0x40, 0x80 + n % 0x40]
  else [0xF0 + n / 0x40000, 0x80 + n / 0x1000 % 0x40, 0x80 + n / 0x40 % 0x40, 0x80 + n % 0x40]

/-- The conversion `[]byte(s)`: the bytes of a string. -/
def bytesOf (s : String) : List Nat :=
  s.data.flatMap (fun c => utf8EncodeNat c.toNat)

/-- Package `hash/fnv`, `New64a`, `Write` and `Sum64`: the 64-bit FNV-1a hash,
starting from the offset basis, xor each byte in and multiply by the FNV prime
modulo `2^64`. -/
def fnv64a (bytes : List Nat) : Nat :=
  bytes.foldl (fun h b => (h ^^^ b) * 1099511628211 % 2 ^ 64) 14695981039346656037

/-- Method `Type()` of `symbol`. -/
def symbol.Type_ (_ : symbol) : ObjectType := ObjectType.SYMBOL_OBJ

/-- Method `hashKey()` of `symbol`. -/
def symbol.hashKey (s : symbol) : hashKey :=
  { Type_ := s.Type_, Value := fnv64a (bytesOf s.Value) }

/-- Function `symbolToS` (`to_s`). -/
def symbolToS {M : Type} (st : Store) (context : CallContext M) (_args : List (RubyObject M)) :
    Result M × Store :=
  match context.Receiver with
  | RubyObject.ofSymbol sym =>
    let (p, st1) := st.alloc
    ((some (RubyObject.ofString p sym.Value), none), st1)
  | _ => ((none, none), st)

/-! ## `basic_object.go`, `nil.go`, `object.go`: the remaining built-ins -/

/-- Function `basicObjectInitialize`. -/
def basicObjectInitialize {M : Type} (context : CallContext M) (_args : List (RubyObject M)) :
    Result M :=
  (some context.Receiver, none)

/-- Function `basicObjectNot` (`!`). -/
def basicObjectNot {M : Type} (_context : CallContext M) (_args : List (RubyObject M)) :
    Result M :=
  (some FALSE, none)

/-- Function `basicObjectNotEqual` (`!=`). Both operands go through the type
assertion `.(*basicObject)`, which fails at run time (`none`) on any other
dynamic type, as does `args[0]` on an empty argument list. -/
def basicObjectNotEqual {M : Type} (context : CallContext M) (args : List (RubyObject M)) :
    Option (Result M) :=
  match context.Receiver with
  | RubyObject.basicObject p =>
    match args with
    | [] => none
    | arg0 :: _ =>
      match arg0 with
      | RubyObject.basicObject q =>
        if p ≠ q then some (some TRUE, none) else some (some FALSE, none)
      | _ => none
  | _ => none

/-- Function `dummyObj`. -/
def dummyObj {M : Type} (_context : CallContext M) (_args : List (RubyObject M)) : Result M :=
  (some NIL, none)

/-- Function `nilIsNil` (`nil?` of NilClass). -/
def nilIsNil {M : Type} (_context : CallContext M) (_args : List (RubyObject M)) : Result M :=
  (some TRUE, none)

/-- Variable `nilMethods`. -/
def nilMethods : List (String × BuiltinMethod) :=
  [("to_i", withArity 0 (publicMethod GoFunc.notImplemented)),
   ("to_f", withArity 0 (publicMethod GoFunc.notImplemented)),
   ("to_s", withArity 0 (publicMethod GoFunc.notImplemented)),
   ("to_a", withArity 0 (publicMethod GoFunc.notImplemented)),
   ("to_h", withArity 0 (publicMethod GoFunc.notImplemented)),
   ("&", withArity 1 (publicMethod GoFunc.notImplemented)),
   ("|", withArity 1 (publicMethod GoFunc.notImplemented)),
   ("^", withArity 1 (publicMethod GoFunc.notImplemented)),
   ("nil?", withArity 0 (publicMethod GoFunc.nilIsNil))]

/-- Variable `objectMethods`. -/
def objectMethods : List (String × BuiltinMethod) :=
  [("send", publicMethod GoFunc.objectSend),
   ("public_send", publicMethod GoFunc.objectPublicSend),
   ("respond_to?", publicMethod GoFunc.objectRespondTo)]

/-! ## `symbol.go`, continued: `Inspect` and `all_symbols` -/

/-- Method `Inspect()` of `symbol`. -/
def symbol.Inspect (s : symbol) : String := ":" ++ s.Value

/-- The loop of `symbolAllSymbols`, `for _, s := range allSymbols`, over the
entries in iteration order. The state is the slice `elements`, where a slot
that still holds the zero value (a nil interface) is `none`, and the index
`i`. -/
def symbolAllSymbols.range {M : Type} :
    List (String × symbol) → List (Option (RubyObject M)) × Nat →
    List (Option (RubyObject M)) × Nat
  | [], acc => acc
  | (_, s) :: rest, (elements, i) =>
    symbolAllSymbols.range rest (elements.set i (some (RubyObject.ofSymbol s)), i + 1)

/-- The slice `elements` of `symbolAllSymbols` when the loop has finished:
`make([]RubyObject, len(allSymbols))` filled by the loop. -/
def symbolAllSymbols.slots {M : Type} (st : Store) : List (Option (RubyObject M)) :=
  (symbolAllSymbols.range st.allSymbols (List.replicate st.allSymbols.length none, 0)).1

/-- Function `symbolAllSymbols` (`Symbol.all_symbols`). The returned Array
holds the slots of the slice that are not nil. -/
def symbolAllSymbols {M : Type} (st : Store) (_context : CallContext M)
    (_args : List (RubyObject M)) : Result M × Store :=
  let elements : List (Option (RubyObject M)) := symbolAllSymbols.slots st
  let (p, st1) := st.alloc
  ((some (RubyObject.ofArray p (elements.filterMap id)), none), st1)

/-! ## `require` -/

/-- The part of the top-level environment that `require` and the file it
evaluates share: the elements of the global array `$LOADED_FEATURES` and the
rest of the global scope (global variables, constants, classes, modules), kept
opaque. The locals of the fresh child scope in which a file is evaluated are
dropped when the evaluation ends and are not part of it. -/
structure RequireEnv (E : Type) where
  loadedFeatures : List String
  globals : E

/-- What `require` consumes from outside the package: `filepath.Abs`, reading
and parsing a file into a program node (or the LoadError or SyntaxError that
this raises) and the evaluation callback of the call context. The callback
works on the shared environment: evaluating a file may write globals, write
`$LOADED_FEATURES` and call `require` again. -/
structure RequireHost (M P E : Type) where
  absolute : String → String
  load : String → Except RubyError P
  eval : P → RequireEnv E → Result M × RequireEnv E

/-- The source-file suffix that `require` appends when it is missing. -/
def sourceSuffix : String := ".rb"

/-- The absolute path that `require` resolves a path to. -/
def resolveFeature {M P E : Type} (host : RequireHost M P E) (path : String) : String :=
  host.absolute (if sourceSuffix.data.isSuffixOf path.data then path else path ++ sourceSuffix)

/-- Modelled from the spec: `kernelRequire` is not in the analysed files (only
its tests are). Section 4.4: resolve the path to an absolute path, appending
the source suffix if missing; if it is already in `$LOADED_FEATURES` return
false at once; otherwise read and parse the file, a failure being returned
with the list untouched; evaluate the program through the callback, whose
effects on the shared environment stay visible; on success append the absolute
path to the list as the evaluation left it and return true, on an error return
it and do not record the path. The third component of the result lists the
program nodes with which this call invoked the callback. -/
def kernelRequire {M P E : Type} (host : RequireHost M P E) (env : RequireEnv E)
    (path : String) : Result M × RequireEnv E × List P :=
  let abs := resolveFeature host path
  if abs ∈ env.loadedFeatures then ((some FALSE, none), env, [])
  else
    match host.load abs with
    | Except.error err => ((none, some err), env, [])
    | Except.ok program =>
      match host.eval program env with
      | ((_, some err), env1) => ((none, some err), env1, [program])
      | ((_, none), env1) =>
        ((some TRUE, none),
          { env1 with loadedFeatures := env1.loadedFeatures ++ [abs] }, [program])

/-! ## Vocabulary of the specification -/

/-- The superclass chain of a class, nearest class first. -/
def ancestors {M : Type} : RubyClass M → List (RubyClass M)
  | RubyClass.nil => []
  | RubyClass.mk name instanceMethods superClass =>
    RubyClass.mk name instanceMethods superClass :: ancestors superClass

/-- Class `k` has `name` in its own method set. -/
def defines {M : Type} (k : RubyClass M) (name : String) : Bool :=
  (k.Methods.Get name).isSome

/-- The first class on the chain of `c` that has `name` in its method set. -/
def firstDefiner {M : Type} (c : RubyClass M) (name : String) : Option (RubyClass M) :=
  (ancestors c).find? (fun k => defines k name)

/-- Class `k` defines `name` with visibility `v`. -/
def definesWith {M : Type} (d : Externals M) (k : RubyClass M) (name : String)
    (v : MethodVisibility) : Prop :=
  ∃ fn, k.Methods.Get name = some fn ∧ d.Visibility fn = v

/-- The text of an element when it is a Symbol. -/
def symbolValue {M : Type} : RubyObject M → Option String
  | RubyObject.ofSymbol s => some s.Value
  | _ => none

/-- The texts of the Symbol elements of a list of objects, in order. -/
def symbolNames {M : Type} (elements : List (RubyObject M)) : List String :=
  elements.filterMap symbolValue

/-- Every element is a Symbol. -/
def allSymbolObjects {M : Type} (elements : List (RubyObject M)) : Prop :=
  ∀ e ∈ elements, ∃ s, e = RubyObject.ofSymbol s

/-! ## Example runtime used to evaluate the code on concrete inputs -/

/-- A method of the example runtime: its visibility and a tag that its body
reports back. -/
structure ProbeMethod where
  visibility : MethodVisibility
  tag : String
  deriving DecidableEq, Repr

/-- Name conversion of the example runtime: the text of a Symbol or String,
a TypeError for any other object. -/
def probeStringify : RubyObject ProbeMethod → Except RubyError String
  | RubyObject.ofSymbol s => Except.ok s.Value
  | RubyObject.ofString _ v => Except.ok v
  | _ => Except.error
      { kind := ExceptionType.TypeError,
        base := { exception := some ExceptionType.TypeError,
                  Message := "no implicit conversion into String" } }

/-- A class of the example runtime without methods and without superclass. -/
def probeEmptyClass (name : String) : RubyClass ProbeMethod :=
  RubyClass.mk name ⟨[], List.nodup_nil⟩ RubyClass.nil

/-- The example runtime. A method body answers with an array holding its tag
followed by the arguments it received; `methodMissing` and `Send` answer in the
same way with the tags "method_missing" and "Send:" followed by the name. A
class inspects as its name. -/
def probe : Externals ProbeMethod where
  Visibility := fun fn => fn.visibility
  Call := fun fn st _ args =>
    ((some (RubyObject.ofArray 0 (RubyObject.ofString 0 fn.tag :: args)), none), st)
  stringify := probeStringify
  methodMissing := fun st _ args =>
    ((some (RubyObject.ofArray 0 (RubyObject.ofString 0 "method_missing" :: args)), none), st)
  Send := fun st _ method args =>
    ((some (RubyObject.ofArray 0 (RubyObject.ofString 0 ("Send:" ++ method) :: args)), none), st)
  symbolClass := probeEmptyClass "Symbol"
  nilClass := probeEmptyClass "NilClass"
  basicObjectClass := probeEmptyClass "BasicObject"
  objectClass := probeEmptyClass "Object"
  valueClass := fun _ => probeEmptyClass "Value"
  valueInspect := fun _ => "#<value>"
  classInspect := fun c =>
    match c with
    | RubyClass.nil => ""
    | RubyClass.mk name _ _ => name

/-- Superclass of the examples: public `foo` and `bar`, private `secret`. -/
def probeSuper : RubyClass ProbeMethod :=
  RubyClass.mk "Super"
    ⟨[("foo", ⟨PUBLIC_METHOD, "Super#foo"⟩), ("bar", ⟨PUBLIC_METHOD, "Super#bar"⟩),
      ("secret", ⟨PRIVATE_METHOD, "Super#secret"⟩)], by decide⟩
    RubyClass.nil

/-- Subclass of the examples: redefines `foo` as private and adds the
protected `guarded`. -/
def probeSub : RubyClass ProbeMethod :=
  RubyClass.mk "Sub"
    ⟨[("foo", ⟨PRIVATE_METHOD, "Sub#foo"⟩), ("guarded", ⟨PROTECTED_METHOD, "Sub#guarded"⟩)],
      by decide⟩
    probeSuper

/-- An instance of `probeSub` at address 1. -/
def probeReceiver : RubyObject ProbeMethod := RubyObject.classInstance 1 probeSub

/-- A call context whose receiver is `probeReceiver`. -/
def probeContext : CallContext ProbeMethod := ⟨probeReceiver⟩

/-- A store whose next free address is 10 and whose intern table is empty. -/
def probeStore : Store := ⟨10, []⟩

/-- The files of the examples: paths are made absolute under "/work/";
"testfile.rb" holds the program "x = 5", "a.rb" the program "require b" and
"b.rb" the program "y = 1". -/
def probeLoad (p : String) : Except RubyError String :=
  if p = "/work/testfile.rb" then Except.ok "x = 5"
  else if p = "/work/a.rb" then Except.ok "require b"
  else if p = "/work/b.rb" then Except.ok "y = 1"
  else Except.error (NewStandardError ("cannot load such file -- " ++ p))

/-- The host of the tests: the callback answers TRUE and leaves the
environment as it is. -/
def probeHost : RequireHost ProbeMethod String Unit where
  absolute := fun p => "/work/" ++ p
  load := probeLoad
  eval := fun _ env => ((some TRUE, none), env)

/-- A host whose callback re-enters `require`: evaluating the program
"require b" requires the file "b" in the same environment; every other
program answers TRUE and leaves the environment as it is. -/
def probeNestedHost : RequireHost ProbeMethod String Unit where
  absolute := fun p => "/work/" ++ p
  load := probeLoad
  eval := fun program env =>
    if program = "require b" then
      ((kernelRequire probeHost env "b").1, (kernelRequire probeHost env "b").2.1)
    else ((some TRUE, none), env)

/-- The nearest definition of `name` on the chain of the receiver's class is
public, or it exists and `includeAll` is set. -/
def nearestVisible {M : Type} (d : Externals M) (context : CallContext M) (name : String)
    (includeAll : Bool) : Prop :=
  ∃ k fn, firstDefiner (Class d context.Receiver) name = some k ∧
    k.Methods.Get name = some fn ∧ (d.Visibility fn = PUBLIC_METHOD ∨ includeAll = true)

/-- Loop invariant of `getMethods` on its state (store, `methodSymbols`,
`set`): the slice holds Symbols only, `set` marks exactly the texts of the
slice, and no text occurs twice in the slice. -/
def getMethods.invariant {M : Type} (acc : Store × List (RubyObject M) × List String) : Prop :=
  allSymbolObjects acc.2.1 ∧ (∀ n, n ∈ acc.2.2 ↔ n ∈ symbolNames acc.2.1) ∧
    (symbolNames acc.2.1).Nodup

/-- Some entry of a method map binds `name` to a method of visibility `v`. -/
def listsWith {M : Type} (d : Externals M) (entries : List (String × M)) (name : String)
    (v : MethodVisibility) : Prop :=
  ∃ fn, (name, fn) ∈ entries ∧ d.Visibility fn = v

/-- A store that the package can reach: every key of the intern table maps to
a symbol with that text, allocated below the allocation counter, and two keys
never share an address. -/
def Store.wellFormed (st : Store) : Prop :=
  (∀ k s, st.allSymbols.lookup k = some s → s.Value = k ∧ s.ptr < st.nextPtr) ∧
  (∀ k1 k2 s1 s2, st.allSymbols.lookup k1 = some s1 → st.allSymbols.lookup k2 = some s2 →
    s1.ptr = s2.ptr → k1 = k2)

/-- The store after a sequence of further `NewSymbol` calls. -/
def internAll (st : Store) (texts : List String) : Store :=
  texts.foldl (fun acc t => (NewSymbol acc t).2) st

/-- Both operands are Symbols, both Strings or both Integers, and their
`Value` fields are equal. -/
def structurallyEqual {M : Type} (a b : RubyObject M) : Prop :=
  (∃ s1 s2, a = RubyObject.ofSymbol s1 ∧ b = RubyObject.ofSymbol s2 ∧ s1.Value = s2.Value) ∨
  (∃ p1 p2 v, a = RubyObject.ofString p1 v ∧ b = RubyObject.ofString p2 v) ∨
  (∃ p1 p2 v, a = RubyObject.ofInteger p1 v ∧ b = RubyObject.ofInteger p2 v)

/-- The intern table is a map: no key occurs twice. -/
def Store.uniqueKeys (st : Store) : Prop :=
  (st.allSymbols.map Prod.fst).Nodup

/-! ## Lookup lemmas -/

theorem objectSend_search_eq_firstDefiner {M : Type} (method : String) (c : RubyClass M) :
    objectSend.search method c =
      (firstDefiner c method).bind (fun k => (k.Methods.Get method).map (fun fn => (k, fn))) := by
  induction c with
  | nil => rfl
  | mk name ms sup ih =>
    unfold objectSend.search
    cases h : ms.Get method with
    | none =>
      simp only [ih]
      simp [firstDefiner, ancestors, defines, RubyClass.Methods, h]
    | some fn =>
      simp [firstDefiner, ancestors, defines, RubyClass.Methods, h]

theorem objectRespondTo_search_eq {M : Type} (method : String) (c : RubyClass M) :
    objectRespondTo.search method c = objectSend.search method c := by
  induction c with
  | nil => rfl
  | mk name ms sup ih =>
    unfold objectRespondTo.search objectSend.search
    cases h : ms.Get method with
    | none => simpa using ih
    | some fn => rfl

theorem firstDefiner_split {M : Type} (c : RubyClass M) (name : String) (k : RubyClass M)
    (h : firstDefiner c name = some k) :
    defines k name = true ∧
      ∃ pre post, ancestors c = pre ++ k :: post ∧ ∀ j ∈ pre, defines j name = false := by
  unfold firstDefiner at h
  generalize ancestors c = l at h
  induction l with
  | nil => simp at h
  | cons a t ih =>
    by_cases ha : defines a name = true
    · simp [List.find?, ha] at h
      subst h
      exact ⟨ha, [], t, rfl, by simp⟩
    · simp [List.find?, ha] at h
      obtain ⟨hk, pre, post, hsplit, hpre⟩ := ih h
      refine ⟨hk, a :: pre, post, by simp [hsplit], ?_⟩
      intro j hj
      rcases List.mem_cons.mp hj with rfl | hj
      · simpa using ha
      · exact hpre j hj

theorem firstDefiner_isSome_of_mem {M : Type} (c : RubyClass M) (name : String)
    (h : ∃ k ∈ ancestors c, defines k name = true) :
    ∃ k fn, firstDefiner c name = some k ∧ k.Methods.Get name = some fn := by
  obtain ⟨k, hk, hdef⟩ := h
  unfold firstDefiner
  cases hf : (ancestors c).find? (fun k => defines k name) with
  | none =>
    rw [List.find?_eq_none] at hf
    exact absurd hdef (by simpa using hf k hk)
  | some k0 =>
    have h0 : defines k0 name = true := by
      have := @List.find?_some _ (fun k => defines k name) k0 _ hf
      simpa using this
    simp only [defines] at h0
    obtain ⟨fn, hfn⟩ := Option.isSome_iff_exists.mp h0
    exact ⟨k0, fn, rfl, hfn⟩


theorem objectSend_of_search_some {M : Type} (d : Externals M) (st : Store)
    (context : CallContext M) (arg0 : RubyObject M) (rest : List (RubyObject M)) (m : String)
    (k : RubyClass M) (fn : M) (hname : d.stringify arg0 = Except.ok m)
    (hsearch : objectSend.search m (Class d context.Receiver) = some (k, fn)) :
    objectSend d st context (arg0 :: rest) = d.Call fn st context (arg0 :: rest) := by
  simp [objectSend, hname, hsearch]

theorem objectSend_of_search_none {M : Type} (d : Externals M) (st : Store)
    (context : CallContext M) (arg0 : RubyObject M) (rest : List (RubyObject M)) (m : String)
    (hname : d.stringify arg0 = Except.ok m)
    (hsearch : objectSend.search m (Class d context.Receiver) = none) :
    objectSend d st context (arg0 :: rest) =
      d.methodMissing st.alloc.2 context (RubyObject.ofSymbol ⟨st.nextPtr, m⟩ :: arg0 :: rest) := by
  simp [objectSend, hname, hsearch, Store.alloc]

theorem objectSend_search_some_iff {M : Type} (m : String) (c k : RubyClass M) (fn : M) :
    objectSend.search m c = some (k, fn) ↔
      firstDefiner c m = some k ∧ k.Methods.Get m = some fn := by
  rw [objectSend_search_eq_firstDefiner]
  cases hf : firstDefiner c m with
  | none => simp
  | some k0 =>
    constructor
    · intro h
      simp only [Option.some_bind, Option.map_eq_some'] at h
      obtain ⟨a, ha, hp⟩ := h
      cases hp
      exact ⟨rfl, ha⟩
    · rintro ⟨h1, h2⟩
      cases h1
      simp [h2]

theorem objectSend_search_none_iff {M : Type} (m : String) (c : RubyClass M) :
    objectSend.search m c = none ↔ firstDefiner c m = none := by
  rw [objectSend_search_eq_firstDefiner]
  cases hf : firstDefiner c m with
  | none => simp
  | some k0 =>
    have hd := (firstDefiner_split c m k0 hf).1
    simp only [defines] at hd
    obtain ⟨fn, hfn⟩ := Option.isSome_iff_exists.mp hd
    simp [hfn]

theorem objectRespondTo_lookup_of_none {M : Type} (d : Externals M) (context : CallContext M)
    (m : String) (includeAll : Bool)
    (hs : objectSend.search m (Class d context.Receiver) = none) :
    objectRespondTo.lookup d context m includeAll = (some FALSE, none) := by
  simp [objectRespondTo.lookup, objectRespondTo_search_eq, hs]

theorem objectRespondTo_lookup_of_some {M : Type} (d : Externals M) (context : CallContext M)
    (m : String) (includeAll : Bool) (k : RubyClass M) (fn : M)
    (hs : objectSend.search m (Class d context.Receiver) = some (k, fn)) :
    objectRespondTo.lookup d context m includeAll =
      if (d.Visibility fn = PRIVATE_METHOD ∨ d.Visibility fn = PROTECTED_METHOD) ∧
          ¬ includeAll = true then (some FALSE, none) else (some TRUE, none) := by
  simp [objectRespondTo.lookup, objectRespondTo_search_eq, hs]

theorem objectRespondTo_lookup_true_iff {M : Type} (d : Externals M) (context : CallContext M)
    (m : String) (includeAll : Bool) :
    objectRespondTo.lookup d context m includeAll = (some TRUE, none) ↔
      nearestVisible d context m includeAll := by
  cases hs : objectSend.search m (Class d context.Receiver) with
  | none =>
    rw [objectRespondTo_lookup_of_none d context m includeAll hs]
    have hnone := (objectSend_search_none_iff m _).mp hs
    constructor
    · intro h
      simp [TRUE, FALSE] at h
    · rintro ⟨k, fn, hf, _, _⟩
      rw [hnone] at hf
      cases hf
  | some p =>
    obtain ⟨k, fn⟩ := p
    rw [objectRespondTo_lookup_of_some d context m includeAll k fn hs]
    obtain ⟨hf, hg⟩ := (objectSend_search_some_iff m _ k fn).mp hs
    have key : nearestVisible d context m includeAll ↔
        (d.Visibility fn = PUBLIC_METHOD ∨ includeAll = true) := by
      constructor
      · rintro ⟨k1, fn1, hf1, hg1, hv⟩
        rw [hf] at hf1
        cases hf1
        rw [hg] at hg1
        cases hg1
        exact hv
      · intro hv
        exact ⟨k, fn, hf, hg, hv⟩
    rw [key]
    cases includeAll <;> cases hv : d.Visibility fn <;> simp [TRUE, FALSE]

theorem objectRespondTo_lookup_total {M : Type} (d : Externals M) (context : CallContext M)
    (m : String) (includeAll : Bool) :
    objectRespondTo.lookup d context m includeAll = (some TRUE, none) ∨
      objectRespondTo.lookup d context m includeAll = (some FALSE, none) := by
  cases hs : objectSend.search m (Class d context.Receiver) with
  | none => exact Or.inr (objectRespondTo_lookup_of_none d context m includeAll hs)
  | some p =>
    obtain ⟨k, fn⟩ := p
    rw [objectRespondTo_lookup_of_some d context m includeAll k fn hs]
    split
    · exact Or.inr rfl
    · exact Or.inl rfl

theorem TRUE_ne_FALSE {M : Type} :
    ((some TRUE, none) : Result M) ≠ (some FALSE, none) := by
  simp [TRUE, FALSE]

/-! ## Dispatch: `send`, `public_send`, `respond_to?` -/

/-- C1: when some class on the receiver's superclass chain has `m` in its
method set, `objectSend` calls the method stored in the first such class (every
class before it on the chain lacks `m`), whatever its visibility, and returns
that call's result and error. -/
theorem objectSend_invokes_first_definition {M : Type} (d : Externals M) (st : Store)
    (context : CallContext M) (arg0 : RubyObject M) (rest : List (RubyObject M)) (m : String)
    (hname : d.stringify arg0 = Except.ok m)
    (hdef : ∃ k ∈ ancestors (Class d context.Receiver), defines k m = true) :
    ∃ k fn pre post,
      ancestors (Class d context.Receiver) = pre ++ k :: post ∧
      (∀ j ∈ pre, defines j m = false) ∧
      k.Methods.Get m = some fn ∧
      objectSend d st context (arg0 :: rest) = d.Call fn st context (arg0 :: rest) := by
  obtain ⟨k, fn, hfirst, hget⟩ := firstDefiner_isSome_of_mem _ m hdef
  obtain ⟨_, pre, post, hsplit, hpre⟩ := firstDefiner_split _ m k hfirst
  refine ⟨k, fn, pre, post, hsplit, hpre, hget, ?_⟩
  apply objectSend_of_search_some d st context arg0 rest m k fn hname
  simp [objectSend_search_eq_firstDefiner, hfirst, hget]

/-- Witness for C1: `send(:foo)` on an instance of `probeSub`, whose class and
superclass both define `foo`. -/
theorem objectSend_invokes_first_definition_witness :
    probe.stringify (RubyObject.ofSymbol ⟨3, "foo"⟩) = Except.ok "foo" ∧
    (∃ k ∈ ancestors (Class probe probeContext.Receiver), defines k "foo" = true) ∧
    ∃ k fn pre post,
      ancestors (Class probe probeContext.Receiver) = pre ++ k :: post ∧
      (∀ j ∈ pre, defines j "foo" = false) ∧
      k.Methods.Get "foo" = some fn ∧
      objectSend probe probeStore probeContext [RubyObject.ofSymbol ⟨3, "foo"⟩] =
        probe.Call fn probeStore probeContext [RubyObject.ofSymbol ⟨3, "foo"⟩] :=
  ⟨rfl, ⟨probeSub, List.Mem.head _, rfl⟩,
    objectSend_invokes_first_definition probe probeStore probeContext
      (RubyObject.ofSymbol ⟨3, "foo"⟩) [] "foo" rfl ⟨probeSub, List.Mem.head _, rfl⟩⟩

/-- C2: evaluation of `send(:nope, 7)` where no class on the chain defines
`nope`. `method_missing` is reached with three arguments, the fresh Symbol
followed by the whole original argument list (name argument included), not with
the two arguments `[Symbol(nope), 7]`. -/
theorem objectSend_method_missing_gets_name_twice :
    firstDefiner (Class probe probeContext.Receiver) "nope" = none ∧
    objectSend probe probeStore probeContext
        [RubyObject.ofSymbol ⟨3, "nope"⟩, RubyObject.ofInteger 4 7] =
      probe.methodMissing ⟨11, []⟩ probeContext
        [RubyObject.ofSymbol ⟨10, "nope"⟩, RubyObject.ofSymbol ⟨3, "nope"⟩,
          RubyObject.ofInteger 4 7] ∧
    objectSend probe probeStore probeContext
        [RubyObject.ofSymbol ⟨3, "nope"⟩, RubyObject.ofInteger 4 7] =
      ((some (RubyObject.ofArray 0
          [RubyObject.ofString 0 "method_missing", RubyObject.ofSymbol ⟨10, "nope"⟩,
            RubyObject.ofSymbol ⟨3, "nope"⟩, RubyObject.ofInteger 4 7]), none), ⟨11, []⟩) :=
  ⟨rfl, rfl, rfl⟩

/-- C3: evaluation of `send(:bar)` with no further argument, `bar` being
defined by the superclass. The method body receives one argument (the name
argument), whereas `public_send(:bar)` hands the empty list to `Send`. -/
theorem objectSend_passes_name_argument :
    objectSend probe probeStore probeContext [RubyObject.ofSymbol ⟨3, "bar"⟩] =
      probe.Call ⟨PUBLIC_METHOD, "Super#bar"⟩ probeStore probeContext
        [RubyObject.ofSymbol ⟨3, "bar"⟩] ∧
    objectSend probe probeStore probeContext [RubyObject.ofSymbol ⟨3, "bar"⟩] =
      ((some (RubyObject.ofArray 0
          [RubyObject.ofString 0 "Super#bar", RubyObject.ofSymbol ⟨3, "bar"⟩]), none),
        probeStore) ∧
    objectPublicSend probe probeStore probeContext [RubyObject.ofSymbol ⟨3, "bar"⟩] =
      probe.Send probeStore probeContext "bar" [] :=
  ⟨rfl, rfl, rfl⟩

/-- C4: for a name argument that converts to the text `m` and a Boolean
`includeAll`, `objectRespondTo` returns TRUE exactly when some class on the
receiver's chain defines `m` and the nearest definition is public or
`includeAll` is true; otherwise it returns FALSE; it never fails; and omitting
the second argument is the same as passing FALSE. -/
theorem objectRespondTo_true_iff_nearest_visible {M : Type} (d : Externals M)
    (context : CallContext M) (arg0 : RubyObject M) (m : String) (includeAll : Bool)
    (hname : d.stringify arg0 = Except.ok m) :
    (objectRespondTo d context [arg0, RubyObject.ofBoolean includeAll] = (some TRUE, none) ↔
      nearestVisible d context m includeAll) ∧
    (objectRespondTo d context [arg0, RubyObject.ofBoolean includeAll] = (some FALSE, none) ↔
      ¬ nearestVisible d context m includeAll) ∧
    objectRespondTo d context [arg0] = objectRespondTo d context [arg0, FALSE] := by
  have h2 : objectRespondTo d context [arg0, RubyObject.ofBoolean includeAll] =
      objectRespondTo.lookup d context m includeAll := by
    simp [objectRespondTo, hname]
  have h1 : objectRespondTo d context [arg0] = objectRespondTo.lookup d context m false := by
    simp [objectRespondTo, hname]
  have h3 : objectRespondTo d context [arg0, FALSE] =
      objectRespondTo.lookup d context m false := by
    simp [objectRespondTo, hname, FALSE]
  refine ⟨?_, ?_, by rw [h1, h3]⟩
  · rw [h2]
    exact objectRespondTo_lookup_true_iff d context m includeAll
  · rw [h2, ← objectRespondTo_lookup_true_iff d context m includeAll]
    constructor
    · intro hF hT
      exact TRUE_ne_FALSE (hT.symm.trans hF)
    · intro hT
      rcases objectRespondTo_lookup_total d context m includeAll with h | h
      · exact absurd h hT
      · exact h

/-- Witness for C4: `respond_to?(:foo)` on an instance of `probeSub`, whose
nearest `foo` is private. -/
theorem objectRespondTo_true_iff_nearest_visible_witness :
    probe.stringify (RubyObject.ofSymbol ⟨3, "foo"⟩) = Except.ok "foo" ∧
    ((objectRespondTo probe probeContext
        [RubyObject.ofSymbol ⟨3, "foo"⟩, RubyObject.ofBoolean false] = (some TRUE, none) ↔
      nearestVisible probe probeContext "foo" false) ∧
    (objectRespondTo probe probeContext
        [RubyObject.ofSymbol ⟨3, "foo"⟩, RubyObject.ofBoolean false] = (some FALSE, none) ↔
      ¬ nearestVisible probe probeContext "foo" false) ∧
    objectRespondTo probe probeContext [RubyObject.ofSymbol ⟨3, "foo"⟩] =
      objectRespondTo probe probeContext [RubyObject.ofSymbol ⟨3, "foo"⟩, FALSE]) :=
  ⟨rfl, objectRespondTo_true_iff_nearest_visible probe probeContext
    (RubyObject.ofSymbol ⟨3, "foo"⟩) "foo" false rfl⟩

/-- C5: the lookup loop of `objectRespondTo` stops at the same class with the
same method as the lookup loop of `objectSend`; `respond_to?(m, true)` is TRUE
exactly when the loop of `objectSend` finds a method; in that case `objectSend`
returns the call of that method, and otherwise it returns the call of
`methodMissing`. -/
theorem objectRespondTo_agrees_with_objectSend {M : Type} (d : Externals M) (st : Store)
    (context : CallContext M) (arg0 : RubyObject M) (rest : List (RubyObject M)) (m : String)
    (hname : d.stringify arg0 = Except.ok m) :
    objectRespondTo.search m (Class d context.Receiver) =
      objectSend.search m (Class d context.Receiver) ∧
    (objectRespondTo d context [arg0, TRUE] = (some TRUE, none) ↔
      ∃ k fn, objectSend.search m (Class d context.Receiver) = some (k, fn) ∧
        objectSend d st context (arg0 :: rest) = d.Call fn st context (arg0 :: rest)) ∧
    (objectRespondTo d context [arg0, TRUE] = (some FALSE, none) ↔
      objectSend.search m (Class d context.Receiver) = none ∧
        objectSend d st context (arg0 :: rest) =
          d.methodMissing st.alloc.2 context
            (RubyObject.ofSymbol ⟨st.nextPtr, m⟩ :: arg0 :: rest)) := by
  have h2 : objectRespondTo d context [arg0, TRUE] =
      objectRespondTo.lookup d context m true := by
    simp [objectRespondTo, hname, TRUE]
  refine ⟨objectRespondTo_search_eq m _, ?_, ?_⟩
  · rw [h2]
    cases hs : objectSend.search m (Class d context.Receiver) with
    | none =>
      rw [objectRespondTo_lookup_of_none d context m true hs]
      simp [TRUE, FALSE]
    | some p =>
      obtain ⟨k, fn⟩ := p
      rw [objectRespondTo_lookup_of_some d context m true k fn hs]
      simp only [not_true_eq_false, and_false, if_false, true_iff]
      exact ⟨k, fn, rfl, objectSend_of_search_some d st context arg0 rest m k fn hname hs⟩
  · rw [h2]
    cases hs : objectSend.search m (Class d context.Receiver) with
    | none =>
      rw [objectRespondTo_lookup_of_none d context m true hs]
      simp only [true_and, true_iff]
      exact objectSend_of_search_none d st context arg0 rest m hname hs
    | some p =>
      obtain ⟨k, fn⟩ := p
      rw [objectRespondTo_lookup_of_some d context m true k fn hs]
      simp [TRUE, FALSE]

/-- Witness for C5: `respond_to?(:foo, true)` and `send(:foo)` on an instance
of `probeSub`. -/
theorem objectRespondTo_agrees_with_objectSend_witness :
    probe.stringify (RubyObject.ofSymbol ⟨3, "foo"⟩) = Except.ok "foo" ∧
    (objectRespondTo.search "foo" (Class probe probeContext.Receiver) =
      objectSend.search "foo" (Class probe probeContext.Receiver) ∧
    (objectRespondTo probe probeContext [RubyObject.ofSymbol ⟨3, "foo"⟩, TRUE] =
        (some TRUE, none) ↔
      ∃ k fn, objectSend.search "foo" (Class probe probeContext.Receiver) = some (k, fn) ∧
        objectSend probe probeStore probeContext [RubyObject.ofSymbol ⟨3, "foo"⟩] =
          probe.Call fn probeStore probeContext [RubyObject.ofSymbol ⟨3, "foo"⟩]) ∧
    (objectRespondTo probe probeContext [RubyObject.ofSymbol ⟨3, "foo"⟩, TRUE] =
        (some FALSE, none) ↔
      objectSend.search "foo" (Class probe probeContext.Receiver) = none ∧
        objectSend probe probeStore probeContext [RubyObject.ofSymbol ⟨3, "foo"⟩] =
          probe.methodMissing probeStore.alloc.2 probeContext
            [RubyObject.ofSymbol ⟨probeStore.nextPtr, "foo"⟩,
              RubyObject.ofSymbol ⟨3, "foo"⟩])) :=
  ⟨rfl, objectRespondTo_agrees_with_objectSend probe probeStore probeContext
    (RubyObject.ofSymbol ⟨3, "foo"⟩) [] "foo" rfl⟩

/-! ## Lemmas on `getMethods` -/

theorem lookup_eq_some_iff_mem {M : Type} (l : List (String × M))
    (h : (l.map Prod.fst).Nodup) (n : String) (fn : M) :
    l.lookup n = some fn ↔ (n, fn) ∈ l := by
  induction l with
  | nil => simp
  | cons hd t ih =>
    obtain ⟨a, b⟩ := hd
    simp only [List.map_cons, List.nodup_cons, List.mem_map, not_exists, not_and] at h
    obtain ⟨hnot, hnd⟩ := h
    by_cases hna : n = a
    · subst hna
      have hmem : (n, fn) ∉ t := fun hm => hnot (n, fn) hm rfl
      simp [List.lookup_cons, hmem, eq_comm]
    · have hbeq : (n == a) = false := by simpa using hna
      simp [List.lookup_cons, hbeq, hna, ih hnd]

theorem definesWith_iff_listsWith {M : Type} (d : Externals M) (k : RubyClass M)
    (name : String) (v : MethodVisibility) :
    definesWith d k name v ↔ listsWith d k.Methods.GetAll name v := by
  unfold definesWith listsWith MethodSet.Get MethodSet.GetAll
  constructor
  · rintro ⟨fn, hg, hv⟩
    exact ⟨fn, (lookup_eq_some_iff_mem _ k.Methods.unique name fn).mp hg, hv⟩
  · rintro ⟨fn, hm, hv⟩
    exact ⟨fn, (lookup_eq_some_iff_mem _ k.Methods.unique name fn).mpr hm, hv⟩

theorem symbolNames_append_symbol {M : Type} (l : List (RubyObject M)) (s : symbol) :
    symbolNames (l ++ [RubyObject.ofSymbol s]) = symbolNames l ++ [s.Value] := by
  simp [symbolNames, List.filterMap_append, symbolValue]

theorem allSymbolObjects_append_symbol {M : Type} (l : List (RubyObject M)) (s : symbol)
    (h : allSymbolObjects l) : allSymbolObjects (l ++ [RubyObject.ofSymbol s]) := by
  intro e he
  rcases List.mem_append.mp he with he | he
  · exact h e he
  · exact ⟨s, by simpa using he⟩

theorem getMethods_invariant_init {M : Type} (st : Store) :
    getMethods.invariant ((st, [], []) : Store × List (RubyObject M) × List String) := by
  refine ⟨?_, ?_, ?_⟩
  · intro e he
    cases he
  · intro n
    simp [symbolNames]
  · simp [symbolNames]

theorem getMethods_range_spec {M : Type} (d : Externals M) (v : MethodVisibility)
    (entries : List (String × M)) :
    ∀ acc : Store × List (RubyObject M) × List String, getMethods.invariant acc →
      getMethods.invariant (getMethods.range d v entries acc) ∧
      ∀ n, n ∈ symbolNames (getMethods.range d v entries acc).2.1 ↔
        (n ∈ symbolNames acc.2.1 ∨ listsWith d entries n v) := by
  induction entries with
  | nil =>
    intro acc hinv
    refine ⟨by simpa [getMethods.range] using hinv, ?_⟩
    intro n
    simp [getMethods.range, listsWith]
  | cons hd rest ih =>
    obtain ⟨meth, fn⟩ := hd
    rintro ⟨st, syms, set⟩ ⟨hall, hset, hnd⟩
    by_cases hc : d.Visibility fn = v ∧ meth ∉ set
    · have hstep : getMethods.range d v ((meth, fn) :: rest) (st, syms, set) =
          getMethods.range d v rest
            (st.alloc.2, syms ++ [RubyObject.ofSymbol ⟨st.alloc.1, meth⟩], meth :: set) := by
        simp [getMethods.range, hc]
      have hfresh : meth ∉ symbolNames syms := fun hm => hc.2 ((hset meth).mpr hm)
      have hinv1 : getMethods.invariant
          (st.alloc.2, syms ++ [RubyObject.ofSymbol ⟨st.alloc.1, meth⟩], meth :: set) := by
        refine ⟨allSymbolObjects_append_symbol syms _ hall, ?_, ?_⟩
        · intro n
          simp only [symbolNames_append_symbol, List.mem_cons, List.mem_append,
            List.mem_singleton]
          rw [hset n]
          tauto
        · simp only [symbolNames_append_symbol]
          exact List.Nodup.append hnd (List.nodup_singleton meth)
            (by simpa using hfresh)
      obtain ⟨hinv2, hmem⟩ := ih _ hinv1
      rw [hstep]
      refine ⟨hinv2, ?_⟩
      intro n
      rw [hmem n]
      simp only [symbolNames_append_symbol, List.mem_append, List.mem_singleton, listsWith,
        List.mem_cons, Prod.mk.injEq, List.not_mem_nil, or_false]
      constructor
      · rintro ((h | h) | ⟨fn1, h1, h2⟩)
        · exact Or.inl h
        · exact Or.inr ⟨fn, Or.inl ⟨h, rfl⟩, hc.1⟩
        · exact Or.inr ⟨fn1, Or.inr h1, h2⟩
      · rintro (h | ⟨fn1, (⟨h1, _⟩ | h1), h2⟩)
        · exact Or.inl (Or.inl h)
        · exact Or.inl (Or.inr h1)
        · exact Or.inr ⟨fn1, h1, h2⟩
    · have hstep : getMethods.range d v ((meth, fn) :: rest) (st, syms, set) =
          getMethods.range d v rest (st, syms, set) := by
        simp only [getMethods.range]
        rw [if_neg hc]
      obtain ⟨hinv2, hmem⟩ := ih (st, syms, set) ⟨hall, hset, hnd⟩
      rw [hstep]
      refine ⟨hinv2, ?_⟩
      intro n
      rw [hmem n]
      simp only [listsWith, List.mem_cons, Prod.mk.injEq]
      constructor
      · rintro (h | ⟨fn1, h1, h2⟩)
        · exact Or.inl h
        · exact Or.inr ⟨fn1, Or.inr h1, h2⟩
      · rintro (h | ⟨fn1, (⟨h1, h3⟩ | h1), h2⟩)
        · exact Or.inl h
        · subst h1
          subst h3
          have hin : n ∈ set := by
            by_contra hcon
            exact hc ⟨h2, hcon⟩
          exact Or.inl ((hset n).mp hin)
        · exact Or.inr ⟨fn1, h1, h2⟩


theorem getMethods_loop_invariant {M : Type} (d : Externals M) (v : MethodVisibility)
    (b : Bool) (c : RubyClass M) :
    ∀ acc : Store × List (RubyObject M) × List String, getMethods.invariant acc →
      getMethods.invariant (getMethods.loop d v b c acc) := by
  induction c with
  | nil =>
    intro acc hinv
    simpa [getMethods.loop] using hinv
  | mk name ms sup ih =>
    intro acc hinv
    have h1 := (getMethods_range_spec d v ms.GetAll acc hinv).1
    cases b with
    | false => simpa [getMethods.loop] using h1
    | true => simpa [getMethods.loop] using ih _ h1

theorem getMethods_loop_mem_super {M : Type} (d : Externals M) (v : MethodVisibility)
    (c : RubyClass M) :
    ∀ acc : Store × List (RubyObject M) × List String, getMethods.invariant acc →
      ∀ n, n ∈ symbolNames (getMethods.loop d v true c acc).2.1 ↔
        (n ∈ symbolNames acc.2.1 ∨ ∃ k ∈ ancestors c, listsWith d k.Methods.GetAll n v) := by
  induction c with
  | nil =>
    intro acc _ n
    simp [getMethods.loop, ancestors]
  | mk name ms sup ih =>
    intro acc hinv n
    obtain ⟨h1, hmem⟩ := getMethods_range_spec d v ms.GetAll acc hinv
    have hstep : getMethods.loop d v true (RubyClass.mk name ms sup) acc =
        getMethods.loop d v true sup (getMethods.range d v ms.GetAll acc) := by
      simp [getMethods.loop]
    rw [hstep, ih _ h1 n, hmem n]
    simp only [ancestors, List.mem_cons, exists_eq_or_imp, RubyClass.Methods]
    tauto

theorem getMethods_loop_mem_own {M : Type} (d : Externals M) (v : MethodVisibility)
    (c : RubyClass M) (acc : Store × List (RubyObject M) × List String)
    (hinv : getMethods.invariant acc) (n : String) :
    n ∈ symbolNames (getMethods.loop d v false c acc).2.1 ↔
      (n ∈ symbolNames acc.2.1 ∨ listsWith d c.Methods.GetAll n v) := by
  cases c with
  | nil => simp [getMethods.loop, RubyClass.Methods, MethodSet.GetAll, listsWith]
  | mk name ms sup =>
    have hstep : getMethods.loop d v false (RubyClass.mk name ms sup) acc =
        getMethods.range d v ms.GetAll acc := by
      simp [getMethods.loop]
    rw [hstep, (getMethods_range_spec d v ms.GetAll acc hinv).2 n]
    simp [RubyClass.Methods]

theorem getMethods_elements {M : Type} (d : Externals M) (st : Store) (c : RubyClass M)
    (v : MethodVisibility) (b : Bool) :
    (getMethods d st c v b).1.Elements = (getMethods.loop d v b c (st, [], [])).2.1 := by
  unfold getMethods
  rcases getMethods.loop d v b c (st, [], []) with ⟨st1, syms, set⟩
  rfl

theorem allSymbolObjects_eq_map {M : Type} (l : List (RubyObject M)) (h : allSymbolObjects l) :
    ∃ syms : List symbol, l = syms.map RubyObject.ofSymbol ∧
      symbolNames l = syms.map (fun s => s.Value) := by
  induction l with
  | nil => exact ⟨[], rfl, rfl⟩
  | cons a t ih =>
    obtain ⟨s, hs⟩ := h a (List.mem_cons_self a t)
    obtain ⟨syms, h1, h2⟩ := ih (fun e he => h e (List.mem_cons_of_mem a he))
    refine ⟨s :: syms, ?_, ?_⟩
    · simp [hs, h1]
    · subst hs
      simp only [symbolNames] at h2
      simp [symbolNames, symbolValue, h2]

theorem ancestors_suffix {M : Type} (c : RubyClass M) :
    ∀ (pre : List (RubyClass M)) (k : RubyClass M) (post : List (RubyClass M)),
      ancestors c = pre ++ k :: post → post = ancestors k.SuperClass := by
  induction c with
  | nil =>
    intro pre k post h
    simp [ancestors] at h
  | mk name ms sup ih =>
    intro pre k post h
    cases pre with
    | nil =>
      simp only [ancestors, List.nil_append, List.cons.injEq] at h
      obtain ⟨hk, hpost⟩ := h
      subst hk
      simpa [RubyClass.SuperClass] using hpost.symm
    | cons a pre1 =>
      simp only [ancestors, List.cons_append, List.cons.injEq] at h
      exact ih pre1 k post h.2

theorem getMethods_listed_iff {M : Type} (d : Externals M) (st : Store) (c : RubyClass M)
    (v : MethodVisibility) (name : String) :
    name ∈ symbolNames (getMethods d st c v true).1.Elements ↔
      ∃ k ∈ ancestors c, definesWith d k name v := by
  rw [getMethods_elements, getMethods_loop_mem_super d v c _ (getMethods_invariant_init st) name]
  simp [symbolNames, definesWith_iff_listsWith]

/-! ## Introspection: `getMethods` -/

/-- C6, as stated, fails: `probeSub` defines `foo` as private, its superclass
defines `foo` as public, and the public listing with superclasses contains
`foo`. -/
theorem getMethods_nearest_definition_counterexample :
    ¬ ∀ (c : RubyClass ProbeMethod) (v : MethodVisibility) (name : String),
      name ∈ symbolNames (getMethods probe probeStore c v true).1.Elements →
        ∃ k, firstDefiner c name = some k ∧ definesWith probe k name v := by
  intro h
  obtain ⟨k, hk, fn, hg, hv⟩ := h probeSub PUBLIC_METHOD "foo" (List.Mem.head _)
  have hfirst : firstDefiner probeSub "foo" = some probeSub := rfl
  rw [hfirst] at hk
  cases hk
  have hget : probeSub.Methods.Get "foo" = some ⟨PRIVATE_METHOD, "Sub#foo"⟩ := rfl
  rw [hget] at hg
  cases hg
  cases hv

/-- C6, amended: with `addSuperMethods = true`, a name that is defined on the
chain is listed exactly when its nearest definition has visibility `v` or some
class above the class of the nearest definition defines it with visibility
`v`; a nearer definition of another visibility does not shadow it. -/
theorem getMethods_lists_name_defined_above {M : Type} (d : Externals M) (st : Store)
    (c : RubyClass M) (v : MethodVisibility) (name : String) (k0 : RubyClass M) (fn0 : M)
    (hfirst : firstDefiner c name = some k0) (hget : k0.Methods.Get name = some fn0) :
    name ∈ symbolNames (getMethods d st c v true).1.Elements ↔
      (d.Visibility fn0 = v ∨ ∃ k ∈ ancestors k0.SuperClass, definesWith d k name v) := by
  obtain ⟨_, pre, post, hsplit, hpre⟩ := firstDefiner_split c name k0 hfirst
  have hpost := ancestors_suffix c pre k0 post hsplit
  rw [getMethods_listed_iff, hsplit, ← hpost]
  constructor
  · rintro ⟨k, hk, hdef⟩
    rcases List.mem_append.mp hk with hk | hk
    · obtain ⟨fn, hg, _⟩ := hdef
      have hj := hpre k hk
      simp [defines, hg] at hj
    · rcases List.mem_cons.mp hk with rfl | hk
      · obtain ⟨fn, hg, hv⟩ := hdef
        rw [hget] at hg
        cases hg
        exact Or.inl hv
      · exact Or.inr ⟨k, hk, hdef⟩
  · rintro (hv | ⟨k, hk, hdef⟩)
    · exact ⟨k0, List.mem_append_right _ (List.mem_cons_self _ _), fn0, hget, hv⟩
    · exact ⟨k, List.mem_append_right _ (List.mem_cons_of_mem _ hk), hdef⟩

/-- Witness for the amended C6: `foo` is private in `probeSub` and public in
its superclass. -/
theorem getMethods_lists_name_defined_above_witness :
    firstDefiner probeSub "foo" = some probeSub ∧
    probeSub.Methods.Get "foo" = some ⟨PRIVATE_METHOD, "Sub#foo"⟩ ∧
    ("foo" ∈ symbolNames (getMethods probe probeStore probeSub PUBLIC_METHOD true).1.Elements ↔
      (probe.Visibility ⟨PRIVATE_METHOD, "Sub#foo"⟩ = PUBLIC_METHOD ∨
        ∃ k ∈ ancestors probeSub.SuperClass, definesWith probe k "foo" PUBLIC_METHOD)) :=
  ⟨rfl, rfl,
    getMethods_lists_name_defined_above probe probeStore probeSub PUBLIC_METHOD "foo" probeSub
      ⟨PRIVATE_METHOD, "Sub#foo"⟩ rfl rfl⟩

/-- C7: for every class chain, visibility and value of `addSuperMethods`, the
elements returned by `getMethods` are all Symbols and no two of them carry the
same text. -/
theorem getMethods_symbols_without_repetition {M : Type} (d : Externals M) (st : Store)
    (c : RubyClass M) (v : MethodVisibility) (addSuperMethods : Bool) :
    ∃ syms : List symbol,
      (getMethods d st c v addSuperMethods).1.Elements = syms.map RubyObject.ofSymbol ∧
      (syms.map (fun s => s.Value)).Nodup := by
  obtain ⟨hall, _, hnd⟩ :=
    getMethods_loop_invariant d v addSuperMethods c _ (getMethods_invariant_init st)
  obtain ⟨syms, h1, h2⟩ := allSymbolObjects_eq_map _ hall
  refine ⟨syms, by rw [getMethods_elements]; exact h1, ?_⟩
  rw [← h2]
  exact hnd

/-- C8: with `addSuperMethods = true` a name is listed by `getMethods` exactly
when the class itself or one of its ancestors defines that name with the
requested visibility. -/
theorem getMethods_super_lists_exactly {M : Type} (d : Externals M) (st : Store)
    (c : RubyClass M) (v : MethodVisibility) (name : String) :
    name ∈ symbolNames (getMethods d st c v true).1.Elements ↔
      ∃ k, k ∈ ancestors c ∧ ∃ fn, k.Methods.Get name = some fn ∧ d.Visibility fn = v := by
  rw [getMethods_listed_iff]
  constructor
  · rintro ⟨k, hk, hdef⟩
    exact ⟨k, hk, hdef⟩
  · rintro ⟨k, hk, hdef⟩
    exact ⟨k, hk, hdef⟩

/-- C9: with `addSuperMethods = false` a name is listed by `getMethods` exactly
when the node's own method set binds it to a method of the requested
visibility; the superclass chain is not consulted. -/
theorem getMethods_own_lists_exactly {M : Type} (d : Externals M) (st : Store)
    (name_ : String) (instanceMethods : MethodSet M) (superClass : RubyClass M)
    (v : MethodVisibility) (name : String) :
    name ∈ symbolNames
        (getMethods d st (RubyClass.mk name_ instanceMethods superClass) v false).1.Elements ↔
      ∃ fn, instanceMethods.Get name = some fn ∧ d.Visibility fn = v := by
  rw [getMethods_elements, getMethods_loop_mem_own d v _ _ (getMethods_invariant_init st) name,
    ← definesWith_iff_listsWith]
  simp [symbolNames, definesWith, RubyClass.Methods]

/-! ## Symbol identity -/

/-- C10: evaluation with `bar` already interned at address 10. `NewSymbol`
keeps returning that object, but `getMethods` builds a new Symbol `bar` at
address 12 without touching the intern table, `==` of the two is FALSE, and
the Symbol that `objectSend` hands to `methodMissing` for the interned name
`nope` is likewise a new object. -/
theorem symbols_built_outside_intern_table :
    (NewSymbol probeStore "bar").1 = ⟨10, "bar"⟩ ∧
    (NewSymbol (NewSymbol probeStore "bar").2 "bar").1 = ⟨10, "bar"⟩ ∧
    (getMethods probe (NewSymbol probeStore "bar").2 probeSuper PUBLIC_METHOD false).1.Elements =
      [RubyObject.ofSymbol ⟨11, "foo"⟩, RubyObject.ofSymbol ⟨12, "bar"⟩] ∧
    (getMethods probe (NewSymbol probeStore "bar").2 probeSuper PUBLIC_METHOD false).2.allSymbols =
      [("bar", ⟨10, "bar"⟩)] ∧
    basicObjectEqual (⟨RubyObject.ofSymbol ⟨12, "bar"⟩⟩ : CallContext ProbeMethod)
        [RubyObject.ofSymbol (NewSymbol probeStore "bar").1] = some (some FALSE, none) ∧
    objectSend probe (NewSymbol probeStore "nope").2 probeContext
        [RubyObject.ofSymbol (NewSymbol probeStore "nope").1] =
      probe.methodMissing ⟨12, [("nope", ⟨10, "nope"⟩)]⟩ probeContext
        [RubyObject.ofSymbol ⟨11, "nope"⟩, RubyObject.ofSymbol ⟨10, "nope"⟩] :=
  ⟨rfl, rfl, rfl, rfl, rfl, rfl⟩


/-! ## Lemmas on the intern table -/

theorem NewSymbol_of_some (st : Store) (v : String) (s : symbol)
    (h : st.allSymbols.lookup v = some s) : NewSymbol st v = (s, st) := by
  simp [NewSymbol, h]

theorem NewSymbol_of_none (st : Store) (v : String) (h : st.allSymbols.lookup v = none) :
    NewSymbol st v =
      (⟨st.nextPtr, v⟩, ⟨st.nextPtr + 1, (v, ⟨st.nextPtr, v⟩) :: st.allSymbols⟩) := by
  simp [NewSymbol, h, Store.alloc]

theorem NewSymbol_lookup_self (st : Store) (v : String) :
    (NewSymbol st v).2.allSymbols.lookup v = some (NewSymbol st v).1 := by
  cases h : st.allSymbols.lookup v with
  | none => simp [NewSymbol_of_none st v h, List.lookup_cons]
  | some s => simpa [NewSymbol_of_some st v s h] using h

theorem NewSymbol_lookup_preserved (st : Store) (v k : String) (s : symbol)
    (hk : st.allSymbols.lookup k = some s) :
    (NewSymbol st v).2.allSymbols.lookup k = some s := by
  cases h : st.allSymbols.lookup v with
  | some s0 => simpa [NewSymbol_of_some st v s0 h] using hk
  | none =>
    have hne : k ≠ v := by
      rintro rfl
      rw [h] at hk
      cases hk
    have hbeq : (k == v) = false := by simpa using hne
    simp [NewSymbol_of_none st v h, List.lookup_cons, hbeq, hk]

theorem NewSymbol_lookup_new (st : Store) (v k : String) (s : symbol)
    (hk : (NewSymbol st v).2.allSymbols.lookup k = some s) :
    st.allSymbols.lookup k = some s ∨
      (k = v ∧ st.allSymbols.lookup v = none ∧ s = ⟨st.nextPtr, v⟩) := by
  cases h : st.allSymbols.lookup v with
  | some s0 =>
    rw [NewSymbol_of_some st v s0 h] at hk
    exact Or.inl hk
  | none =>
    rw [NewSymbol_of_none st v h] at hk
    by_cases hkv : k = v
    · subst hkv
      simp [List.lookup_cons] at hk
      exact Or.inr ⟨rfl, rfl, hk.symm⟩
    · have hbeq : (k == v) = false := by simpa using hkv
      simp [List.lookup_cons, hbeq] at hk
      exact Or.inl hk

theorem NewSymbol_nextPtr (st : Store) (v : String) :
    st.nextPtr ≤ (NewSymbol st v).2.nextPtr := by
  cases h : st.allSymbols.lookup v with
  | some s0 => simp [NewSymbol_of_some st v s0 h]
  | none => simp [NewSymbol_of_none st v h]

theorem NewSymbol_wellFormed (st : Store) (v : String) (hwf : st.wellFormed) :
    (NewSymbol st v).2.wellFormed := by
  obtain ⟨hval, hinj⟩ := hwf
  cases h : st.allSymbols.lookup v with
  | some s0 =>
    rw [NewSymbol_of_some st v s0 h]
    exact ⟨hval, hinj⟩
  | none =>
    have hlook : ∀ k s,
        (NewSymbol st v).2.allSymbols.lookup k = some s →
          st.allSymbols.lookup k = some s ∨ (k = v ∧ s = ⟨st.nextPtr, v⟩) := by
      intro k s hk
      rcases NewSymbol_lookup_new st v k s hk with h1 | ⟨h1, _, h3⟩
      · exact Or.inl h1
      · exact Or.inr ⟨h1, h3⟩
    have hnext : (NewSymbol st v).2.nextPtr = st.nextPtr + 1 := by
      simp [NewSymbol_of_none st v h]
    refine ⟨?_, ?_⟩
    · intro k s hk
      rw [hnext]
      rcases hlook k s hk with h1 | ⟨h1, h2⟩
      · exact ⟨(hval k s h1).1, Nat.lt_succ_of_lt (hval k s h1).2⟩
      · subst h1
        subst h2
        exact ⟨rfl, Nat.lt_succ_self _⟩
    · intro k1 k2 s1 s2 hk1 hk2 hptr
      rcases hlook k1 s1 hk1 with h1 | ⟨h1, h1s⟩ <;> rcases hlook k2 s2 hk2 with h2 | ⟨h2, h2s⟩
      · exact hinj k1 k2 s1 s2 h1 h2 hptr
      · subst h2s
        have := (hval k1 s1 h1).2
        simp only at hptr
        omega
      · subst h1s
        have := (hval k2 s2 h2).2
        simp only at hptr
        omega
      · rw [h1, h2]

theorem internAll_lookup_preserved (texts : List String) :
    ∀ (st : Store) (k : String) (s : symbol), st.allSymbols.lookup k = some s →
      (internAll st texts).allSymbols.lookup k = some s := by
  induction texts with
  | nil =>
    intro st k s hk
    simpa [internAll] using hk
  | cons t rest ih =>
    intro st k s hk
    have := ih (NewSymbol st t).2 k s (NewSymbol_lookup_preserved st t k s hk)
    simpa [internAll] using this

theorem internAll_wellFormed (texts : List String) :
    ∀ st : Store, st.wellFormed → (internAll st texts).wellFormed := by
  induction texts with
  | nil =>
    intro st hwf
    simpa [internAll] using hwf
  | cons t rest ih =>
    intro st hwf
    have := ih (NewSymbol st t).2 (NewSymbol_wellFormed st t hwf)
    simpa [internAll] using this

theorem wellFormed_of_empty_table (n : Nat) : (⟨n, []⟩ : Store).wellFormed := by
  refine ⟨?_, ?_⟩
  · intro k s hk
    simp at hk
  · intro k1 k2 s1 s2 hk1
    simp at hk1

/-! ## Symbols: interning, hashing, `to_s` -/

/-- C11: in every reachable store, `NewSymbol(s)` called again after any
sequence of further `NewSymbol` calls returns the identical object, the
returned symbol has `Value` `s`, and for a text `t` different from `s` the
object returned by `NewSymbol(t)` has another address. -/
theorem NewSymbol_returns_interned_object (st : Store) (s t : String) (between : List String)
    (hwf : st.wellFormed) :
    (NewSymbol (internAll (NewSymbol st s).2 between) s).1 = (NewSymbol st s).1 ∧
    (NewSymbol st s).1.Value = s ∧
    (s ≠ t →
      (NewSymbol (internAll (NewSymbol st s).2 between) t).1.ptr ≠ (NewSymbol st s).1.ptr) := by
  have hwf1 := NewSymbol_wellFormed st s hwf
  have hself := NewSymbol_lookup_self st s
  have hlater := internAll_lookup_preserved between _ s _ hself
  have hwf2 := internAll_wellFormed between _ hwf1
  refine ⟨?_, (hwf1.1 s _ hself).1, ?_⟩
  · rw [NewSymbol_of_some _ s _ hlater]
  · intro hst hptr
    have hwf3 := NewSymbol_wellFormed _ t hwf2
    have hs3 := NewSymbol_lookup_preserved _ t s _ hlater
    have ht3 := NewSymbol_lookup_self (internAll (NewSymbol st s).2 between) t
    exact hst (hwf3.2 s t _ _ hs3 ht3 hptr.symm)

/-- Witness for C11: interning `foo`, then `bar` and `baz`, then `foo` and
`qux`, starting from the empty table. -/
theorem NewSymbol_returns_interned_object_witness :
    probeStore.wellFormed ∧
    ((NewSymbol (internAll (NewSymbol probeStore "foo").2 ["bar", "baz"]) "foo").1 =
        (NewSymbol probeStore "foo").1 ∧
      (NewSymbol probeStore "foo").1.Value = "foo" ∧
      ("foo" ≠ "qux" →
        (NewSymbol (internAll (NewSymbol probeStore "foo").2 ["bar", "baz"]) "qux").1.ptr ≠
          (NewSymbol probeStore "foo").1.ptr)) :=
  ⟨wellFormed_of_empty_table 10,
    NewSymbol_returns_interned_object probeStore "foo" "qux" ["bar", "baz"]
      (wellFormed_of_empty_table 10)⟩

/-- C12: the intern table is append-only. After `NewSymbol(s)` every key
present before still maps to the same symbol, every key of the new table is
`s` or was present before, the table grew by at most one entry, every key maps
to a symbol whose `Value` is that key, and a call with an interned `s` leaves
the store unchanged. -/
theorem NewSymbol_table_append_only (st : Store) (s : String) (hwf : st.wellFormed) :
    (∀ k sym, st.allSymbols.lookup k = some sym →
      (NewSymbol st s).2.allSymbols.lookup k = some sym) ∧
    (∀ k, ((NewSymbol st s).2.allSymbols.lookup k).isSome = true →
      k = s ∨ (st.allSymbols.lookup k).isSome = true) ∧
    (NewSymbol st s).2.allSymbols.length ≤ st.allSymbols.length + 1 ∧
    (∀ k sym, (NewSymbol st s).2.allSymbols.lookup k = some sym → sym.Value = k) ∧
    ((st.allSymbols.lookup s).isSome = true → (NewSymbol st s).2 = st) := by
  refine ⟨fun k sym hk => NewSymbol_lookup_preserved st s k sym hk, ?_, ?_, ?_, ?_⟩
  · intro k hk
    obtain ⟨sym, hsym⟩ := Option.isSome_iff_exists.mp hk
    rcases NewSymbol_lookup_new st s k sym hsym with h1 | ⟨h1, _, _⟩
    · exact Or.inr (by simp [h1])
    · exact Or.inl h1
  · cases h : st.allSymbols.lookup s with
    | some s0 => simp [NewSymbol_of_some st s s0 h]
    | none => simp [NewSymbol_of_none st s h]
  · intro k sym hk
    exact ((NewSymbol_wellFormed st s hwf).1 k sym hk).1
  · intro hs
    obtain ⟨s0, h0⟩ := Option.isSome_iff_exists.mp hs
    rw [NewSymbol_of_some st s s0 h0]

/-- Witness for C12: interning `bar` in a store where `foo` is interned. -/
theorem NewSymbol_table_append_only_witness :
    (NewSymbol probeStore "foo").2.wellFormed ∧
    ((∀ k sym, (NewSymbol probeStore "foo").2.allSymbols.lookup k = some sym →
      (NewSymbol (NewSymbol probeStore "foo").2 "bar").2.allSymbols.lookup k = some sym) ∧
    (∀ k, ((NewSymbol (NewSymbol probeStore "foo").2 "bar").2.allSymbols.lookup k).isSome = true →
      k = "bar" ∨ ((NewSymbol probeStore "foo").2.allSymbols.lookup k).isSome = true) ∧
    (NewSymbol (NewSymbol probeStore "foo").2 "bar").2.allSymbols.length ≤
      (NewSymbol probeStore "foo").2.allSymbols.length + 1 ∧
    (∀ k sym, (NewSymbol (NewSymbol probeStore "foo").2 "bar").2.allSymbols.lookup k = some sym →
      sym.Value = k) ∧
    (((NewSymbol probeStore "foo").2.allSymbols.lookup "bar").isSome = true →
      (NewSymbol (NewSymbol probeStore "foo").2 "bar").2 = (NewSymbol probeStore "foo").2)) :=
  ⟨NewSymbol_wellFormed probeStore "foo" (wellFormed_of_empty_table 10),
    NewSymbol_table_append_only (NewSymbol probeStore "foo").2 "bar"
      (NewSymbol_wellFormed probeStore "foo" (wellFormed_of_empty_table 10))⟩


/-! ## Exceptions and `method_missing` -/

theorem NewNoMethodError_of_class {M : Type} (d : Externals M) (r : RubyObject M) (m : String)
    (hclass : Class d r ≠ RubyClass.nil) :
    NewNoMethodError d r m =
      some
        { kind := ExceptionType.NoMethodError,
          base := { exception := some ExceptionType.NoMethodError,
                    Message := "undefined method `" ++ m ++ "' for " ++ Inspect d r ++
                      ":" ++ d.classInspect (Class d r) } } := by
  unfold NewNoMethodError
  cases h : Class d r with
  | nil => exact absurd h hclass
  | mk name ms sup => rfl

theorem probe_nilClass_ne_nil : Class probe (NIL : RubyObject ProbeMethod) ≠ RubyClass.nil := by
  intro h
  cases h

/-- C13: for a receiver with a class and a Symbol of text `m` as first
argument, `basicObjectMethodMissing` returns no value together with the error
`NewNoMethodError(receiver, m)`, a NoMethodError whose message names `m`, the
receiver's `Inspect()` and the `Inspect()` of its class. -/
theorem basicObjectMethodMissing_raises_NoMethodError {M : Type} (d : Externals M)
    (context : CallContext M) (method : symbol) (rest : List (RubyObject M))
    (hclass : Class d context.Receiver ≠ RubyClass.nil) :
    ∃ err, NewNoMethodError d context.Receiver method.Value = some err ∧
      basicObjectMethodMissing d context (RubyObject.ofSymbol method :: rest) =
        some (none, some err) ∧
      err.kind = ExceptionType.NoMethodError ∧
      err.base.Message = "undefined method `" ++ method.Value ++ "' for " ++
        Inspect d context.Receiver ++ ":" ++ d.classInspect (Class d context.Receiver) := by
  have h := NewNoMethodError_of_class d context.Receiver method.Value hclass
  refine ⟨_, h, ?_, rfl, rfl⟩
  simp [basicObjectMethodMissing, h]

/-- Witness for C13: the case of `TestBasicObjectMethodMissing`, receiver `NIL`
and the Symbol `foo`. -/
theorem basicObjectMethodMissing_raises_NoMethodError_witness :
    Class probe (⟨NIL⟩ : CallContext ProbeMethod).Receiver ≠ RubyClass.nil ∧
    ∃ err, NewNoMethodError probe (⟨NIL⟩ : CallContext ProbeMethod).Receiver
        (⟨3, "foo"⟩ : symbol).Value = some err ∧
      basicObjectMethodMissing probe ⟨NIL⟩ [RubyObject.ofSymbol ⟨3, "foo"⟩] =
        some (none, some err) ∧
      err.kind = ExceptionType.NoMethodError ∧
      err.base.Message = "undefined method `" ++ (⟨3, "foo"⟩ : symbol).Value ++ "' for " ++
        Inspect probe (⟨NIL⟩ : CallContext ProbeMethod).Receiver ++ ":" ++
        probe.classInspect (Class probe (⟨NIL⟩ : CallContext ProbeMethod).Receiver) :=
  ⟨probe_nilClass_ne_nil,
    basicObjectMethodMissing_raises_NoMethodError probe ⟨NIL⟩ ⟨3, "foo"⟩ []
      probe_nilClass_ne_nil⟩

/-- C14, as stated, fails: for the receiver `NIL` and the method `foo` the
inspected error is "NoMethodError: undefined method" followed by the name
between a backtick and a single quote, not between two single quotes. -/
theorem NewNoMethodError_single_quotes_counterexample :
    ¬ ∀ (r : RubyObject ProbeMethod) (m : String),
      (NewNoMethodError probe r m).bind RubyError.Inspect =
        some ("NoMethodError: undefined method '" ++ m ++ "' for " ++ Inspect probe r ++
          ":" ++ probe.classInspect (Class probe r)) := by
  intro h
  have h1 := h NIL "foo"
  revert h1
  decide

/-- C14, amended: for every receiver with a class and every method name `m`,
`Inspect()` of `NewNoMethodError(r, m)` is "NoMethodError: undefined method"
followed by `m` between a backtick and a single quote, " for ", the receiver's
`Inspect()`, a colon and the `Inspect()` of the receiver's class. -/
theorem NewNoMethodError_inspect {M : Type} (d : Externals M) (r : RubyObject M) (m : String)
    (hclass : Class d r ≠ RubyClass.nil) :
    (NewNoMethodError d r m).bind RubyError.Inspect =
      some ("NoMethodError: undefined method `" ++ m ++ "' for " ++ Inspect d r ++
        ":" ++ d.classInspect (Class d r)) := by
  rw [NewNoMethodError_of_class d r m hclass]
  have hlit : "NoMethodError: undefined method `" =
      "NoMethodError" ++ ": " ++ "undefined method `" := by decide
  rw [hlit]
  simp only [Option.some_bind, RubyError.Inspect, Exception.Inspect, ExceptionType.Name,
    String.append_assoc]

/-- Witness for the amended C14: receiver `NIL`, method `foo`. -/
theorem NewNoMethodError_inspect_witness :
    Class probe (NIL : RubyObject ProbeMethod) ≠ RubyClass.nil ∧
    (NewNoMethodError probe (NIL : RubyObject ProbeMethod) "foo").bind RubyError.Inspect =
      some ("NoMethodError: undefined method `" ++ "foo" ++ "' for " ++
        Inspect probe (NIL : RubyObject ProbeMethod) ++
        ":" ++ probe.classInspect (Class probe (NIL : RubyObject ProbeMethod))) :=
  ⟨probe_nilClass_ne_nil, NewNoMethodError_inspect probe NIL "foo" probe_nilClass_ne_nil⟩

/-- C15: every constructor of `exception.go` sets the self reference to the
value it returns, so `Inspect()` of the result is defined and reads
"<K>: <message>" with `K` the kind of the constructed value: StandardError,
ZeroDivisionError, ArgumentError, NoMethodError, TypeError and TypeError. -/
theorem exception_constructors_set_self_reference {M : Type} (d : Externals M)
    (message : String) (expected actual : Int) (r : RubyObject M) (m : String)
    (te ta : GoType) (hclass : Class d r ≠ RubyClass.nil) :
    ((NewStandardError message).kind = ExceptionType.StandardError ∧
      (NewStandardError message).base.exception = some (NewStandardError message).kind ∧
      (NewStandardError message).Inspect = some ("StandardError: " ++ message)) ∧
    (NewZeroDivisionError.kind = ExceptionType.ZeroDivisionError ∧
      NewZeroDivisionError.base.exception = some NewZeroDivisionError.kind ∧
      NewZeroDivisionError.Inspect = some "ZeroDivisionError: divided by 0") ∧
    ((NewWrongNumberOfArgumentsError expected actual).kind = ExceptionType.ArgumentError ∧
      (NewWrongNumberOfArgumentsError expected actual).base.exception =
        some (NewWrongNumberOfArgumentsError expected actual).kind ∧
      (NewWrongNumberOfArgumentsError expected actual).Inspect =
        some ("ArgumentError: " ++
          (NewWrongNumberOfArgumentsError expected actual).base.Message)) ∧
    (∃ err, NewNoMethodError d r m = some err ∧
      err.kind = ExceptionType.NoMethodError ∧
      err.base.exception = some err.kind ∧
      err.Inspect = some ("NoMethodError: " ++ err.base.Message)) ∧
    ((NewCoercionTypeError te ta).kind = ExceptionType.TypeError ∧
      (NewCoercionTypeError te ta).base.exception = some (NewCoercionTypeError te ta).kind ∧
      (NewCoercionTypeError te ta).Inspect =
        some ("TypeError: " ++ (NewCoercionTypeError te ta).base.Message)) ∧
    ((NewImplicitConversionTypeError te ta).kind = ExceptionType.TypeError ∧
      (NewImplicitConversionTypeError te ta).base.exception =
        some (NewImplicitConversionTypeError te ta).kind ∧
      (NewImplicitConversionTypeError te ta).Inspect =
        some ("TypeError: " ++ (NewImplicitConversionTypeError te ta).base.Message)) := by
  refine ⟨⟨rfl, rfl, rfl⟩, ⟨rfl, rfl, rfl⟩, ⟨rfl, rfl, rfl⟩, ?_, ⟨rfl, rfl, rfl⟩, ⟨rfl, rfl, rfl⟩⟩
  exact ⟨_, NewNoMethodError_of_class d r m hclass, rfl, rfl, rfl⟩

/-- Witness for C15: the constructors at concrete arguments, `NewNoMethodError`
for the receiver `NIL`. -/
theorem exception_constructors_set_self_reference_witness :
    Class probe (NIL : RubyObject ProbeMethod) ≠ RubyClass.nil ∧
    (NewStandardError "boom").Inspect = some "StandardError: boom" ∧
    NewZeroDivisionError.Inspect = some "ZeroDivisionError: divided by 0" ∧
    (NewWrongNumberOfArgumentsError 0 1).Inspect =
      some "ArgumentError: wrong number of arguments (given 1, expected 0)" ∧
    (NewNoMethodError probe (NIL : RubyObject ProbeMethod) "foo").bind RubyError.Inspect =
      some "NoMethodError: undefined method `foo' for nil:NilClass" ∧
    (NewCoercionTypeError GoType.ptrInteger GoType.ptrString).Inspect =
      some "TypeError: String can't be coerced into Integer" ∧
    (NewImplicitConversionTypeError GoType.ptrSymbol GoType.ptrString).Inspect =
      some "TypeError: no implicit conversion of String into symbol" ∧
    (∃ err, NewNoMethodError probe (NIL : RubyObject ProbeMethod) "foo" = some err ∧
      err.kind = ExceptionType.NoMethodError ∧
      err.base.exception = some err.kind ∧
      err.Inspect = some ("NoMethodError: " ++ err.base.Message)) :=
  ⟨probe_nilClass_ne_nil, rfl, rfl, rfl, rfl, rfl, rfl,
    (exception_constructors_set_self_reference probe "boom" 0 1 NIL "foo"
      GoType.ptrInteger GoType.ptrString probe_nilClass_ne_nil).2.2.2.1⟩

/-- C16: for all integers, `NewWrongNumberOfArgumentsError(expected, actual)`
is an ArgumentError whose message reports `actual` as given and `expected` as
expected; the arguments (0, 1) give "given 1, expected 0". -/
theorem NewWrongNumberOfArgumentsError_message (expected actual : Int) :
    (NewWrongNumberOfArgumentsError expected actual).kind = ExceptionType.ArgumentError ∧
    (NewWrongNumberOfArgumentsError expected actual).base.Message =
      "wrong number of arguments (given " ++ toString actual ++ ", expected " ++
        toString expected ++ ")" ∧
    (NewWrongNumberOfArgumentsError 0 1).base.Message =
      "wrong number of arguments (given 1, expected 0)" ∧
    (NewWrongNumberOfArgumentsError 1 0).base.Message =
      "wrong number of arguments (given 0, expected 1)" ∧
    (NewWrongNumberOfArgumentsError 2 (-3)).base.Message =
      "wrong number of arguments (given -3, expected 2)" :=
  ⟨rfl, rfl, rfl, rfl, rfl⟩


/-! ## Equality -/

theorem sameObject_refl {M : Type} (a : RubyObject M) : sameObject a a = true := by
  cases a <;> simp [sameObject]

theorem sameObject_typeOf {M : Type} (a b : RubyObject M) (h : sameObject a b = true) :
    typeOf a = typeOf b := by
  cases a <;> cases b <;> simp [sameObject] at h <;> rfl

/-- C17: `==` and `equal?` are both bound to `basicObjectEqual`, which for a
receiver and one argument returns TRUE exactly when the two are the same
object and FALSE otherwise, never an error; an object equals itself, and two
Symbols with the same text at different addresses compare FALSE. -/
theorem basicObjectEqual_compares_identity {M : Type} (context : CallContext M)
    (a : RubyObject M) :
    basicObjectMethods.lookup "==" = some (withArity 1 (publicMethod GoFunc.basicObjectEqual)) ∧
    basicObjectMethods.lookup "equal?" =
      some (withArity 1 (publicMethod GoFunc.basicObjectEqual)) ∧
    (basicObjectEqual context [a] = some (some TRUE, none) ↔
      sameObject context.Receiver a = true) ∧
    (basicObjectEqual context [a] = some (some FALSE, none) ↔
      sameObject context.Receiver a = false) ∧
    basicObjectEqual context [context.Receiver] = some (some TRUE, none) ∧
    (∀ p q v, p ≠ q →
      basicObjectEqual (⟨RubyObject.ofSymbol ⟨p, v⟩⟩ : CallContext M)
        [RubyObject.ofSymbol ⟨q, v⟩] = some (some FALSE, none)) := by
  refine ⟨by decide, by decide, ?_, ?_, ?_, ?_⟩
  · cases h : sameObject context.Receiver a <;> simp [basicObjectEqual, h, TRUE, FALSE]
  · cases h : sameObject context.Receiver a <;> simp [basicObjectEqual, h, TRUE, FALSE]
  · simp [basicObjectEqual, sameObject_refl]
  · intro p q v hpq
    simp [basicObjectEqual, sameObject, CallContext.Receiver, hpq]

/-- C18: for two objects of one heap, `rubyEqual` is true exactly when both are
Symbols, both Strings or both Integers with equal `Value`, or they are the same
object; objects of different dynamic types are never equal; and `rbEqual`
returns TRUE exactly when `rubyEqual` of receiver and argument is true, FALSE
otherwise. -/
theorem rubyEqual_structural_or_identity {M : Type} (a b : RubyObject M)
    (rest : List (RubyObject M)) (hheap : sameObject a b = true → a = b) :
    (rubyEqual a b = true ↔ structurallyEqual a b ∨ sameObject a b = true) ∧
    (typeOf a ≠ typeOf b → rubyEqual a b = false) ∧
    (rbEqual ⟨a⟩ (b :: rest) = some (some TRUE, none) ↔ rubyEqual a b = true) ∧
    (rbEqual ⟨a⟩ (b :: rest) = some (some FALSE, none) ↔ rubyEqual a b = false) := by
  refine ⟨?_, ?_, ?_, ?_⟩
  · constructor
    · intro h
      cases a <;> cases b <;>
        simp [rubyEqual, sameObject, structurallyEqual] at h ⊢ <;> first | exact h | tauto
    · rintro (h | h)
      · rcases h with ⟨s1, s2, rfl, rfl, hv⟩ | ⟨p1, p2, v, rfl, rfl⟩ | ⟨p1, p2, v, rfl, rfl⟩
        · simp [rubyEqual, hv]
        · simp [rubyEqual]
        · simp [rubyEqual]
      · have hab := hheap h
        subst hab
        cases a <;> simp [rubyEqual, sameObject]
  · intro hty
    cases a <;> cases b <;> simp [typeOf] at hty <;> simp [rubyEqual, sameObject]
  · cases h : rubyEqual a b <;> simp [rbEqual, CallContext.Receiver, h, TRUE, FALSE]
  · cases h : rubyEqual a b <;> simp [rbEqual, CallContext.Receiver, h, TRUE, FALSE]

/-- Witness for C18: two Symbols with the text `a` at the addresses 1 and 2. -/
theorem rubyEqual_structural_or_identity_witness :
    (sameObject (RubyObject.ofSymbol ⟨1, "a"⟩ : RubyObject ProbeMethod)
        (RubyObject.ofSymbol ⟨2, "a"⟩) = true →
      (RubyObject.ofSymbol ⟨1, "a"⟩ : RubyObject ProbeMethod) = RubyObject.ofSymbol ⟨2, "a"⟩) ∧
    rubyEqual (RubyObject.ofSymbol ⟨1, "a"⟩ : RubyObject ProbeMethod)
      (RubyObject.ofSymbol ⟨2, "a"⟩) = true ∧
    rubyEqual (RubyObject.ofInteger 1 1 : RubyObject ProbeMethod)
      (RubyObject.ofString 2 "1") = false ∧
    rubyEqual (RubyObject.ofSymbol ⟨1, "a"⟩ : RubyObject ProbeMethod)
      (RubyObject.ofString 2 "a") = false ∧
    ((rubyEqual (RubyObject.ofSymbol ⟨1, "a"⟩ : RubyObject ProbeMethod)
        (RubyObject.ofSymbol ⟨2, "a"⟩) = true ↔
      structurallyEqual (RubyObject.ofSymbol ⟨1, "a"⟩ : RubyObject ProbeMethod)
          (RubyObject.ofSymbol ⟨2, "a"⟩) ∨
        sameObject (RubyObject.ofSymbol ⟨1, "a"⟩ : RubyObject ProbeMethod)
          (RubyObject.ofSymbol ⟨2, "a"⟩) = true)) :=
  ⟨fun h => absurd h (by decide), rfl, rfl, rfl,
    (rubyEqual_structural_or_identity (RubyObject.ofSymbol ⟨1, "a"⟩ : RubyObject ProbeMethod)
      (RubyObject.ofSymbol ⟨2, "a"⟩) [] (fun h => absurd h (by decide))).1⟩

/-! ## Hash keys and `to_s` -/

theorem fnv64a_foldl_lt (bytes : List Nat) :
    ∀ h : Nat, h < 2 ^ 64 →
      bytes.foldl (fun h b => (h ^^^ b) * 1099511628211 % 2 ^ 64) h < 2 ^ 64 := by
  induction bytes with
  | nil =>
    intro h hh
    simpa using hh
  | cons b rest ih =>
    intro h _
    simp only [List.foldl_cons]
    exact ih _ (Nat.mod_lt _ (by norm_num))

/-- C19, as stated, fails: the texts "b52o4ynvanipp" and "k0vi3ofq15mkl" differ
and have the same 64-bit FNV-1a hash, hence the same hash key. -/
theorem hashKey_injective_counterexample :
    ¬ ∀ a b : symbol, a.hashKey = b.hashKey ↔ a.Value = b.Value := by
  intro h
  have h1 := (h ⟨1, "b52o4ynvanipp"⟩ ⟨2, "k0vi3ofq15mkl"⟩).mp (by decide)
  revert h1
  decide

/-- C19, amended: symbols with the same text have the same hash key, whose
`Type` is `SYMBOL_OBJ` and whose `Value` is the 64-bit FNV-1a hash of the
bytes of the text; the texts of the test, "Hello World" and "My name is
johnny", have different hash keys. -/
theorem hashKey_eq_of_value_eq (a b : symbol) (h : a.Value = b.Value) :
    a.hashKey = b.hashKey ∧
    a.hashKey.Type_ = ObjectType.SYMBOL_OBJ ∧
    a.hashKey.Value = fnv64a (bytesOf a.Value) ∧
    a.hashKey.Value < 2 ^ 64 ∧
    symbol.hashKey ⟨a.ptr, "Hello World"⟩ ≠ symbol.hashKey ⟨b.ptr, "My name is johnny"⟩ := by
  refine ⟨?_, rfl, rfl, ?_, ?_⟩
  · simp [symbol.hashKey, symbol.Type_, h]
  · exact fnv64a_foldl_lt _ _ (by norm_num)
  · intro hk
    have hv : fnv64a (bytesOf "Hello World") = fnv64a (bytesOf "My name is johnny") :=
      congrArg hashKey.Value hk
    revert hv
    decide

/-- Witness for the amended C19: two Symbols with the text `foo` at the
addresses 1 and 2. -/
theorem hashKey_eq_of_value_eq_witness :
    (⟨1, "foo"⟩ : symbol).Value = (⟨2, "foo"⟩ : symbol).Value ∧
    (⟨1, "foo"⟩ : symbol).hashKey = (⟨2, "foo"⟩ : symbol).hashKey :=
  ⟨rfl, (hashKey_eq_of_value_eq ⟨1, "foo"⟩ ⟨2, "foo"⟩ rfl).1⟩

/-- C20: for a Symbol receiver with text `v` and any arguments, `symbolToS`
returns a new String object whose `Value` is `v` and no error; the intern table
is left as it was. -/
theorem symbolToS_returns_text {M : Type} (st : Store) (sym : symbol)
    (args : List (RubyObject M)) :
    symbolToS st (⟨RubyObject.ofSymbol sym⟩ : CallContext M) args =
      ((some (RubyObject.ofString st.nextPtr sym.Value), none),
        ⟨st.nextPtr + 1, st.allSymbols⟩) ∧
    (symbolToS st (⟨RubyObject.ofSymbol sym⟩ : CallContext M) args).2.allSymbols =
      st.allSymbols :=
  ⟨rfl, rfl⟩


/-! ## `Inspect` of symbols and the remaining BasicObject methods -/

theorem string_colon_append_cancel (a b : String) (h : ":" ++ a = ":" ++ b) : a = b := by
  have hd := congrArg String.data h
  simp only [String.data_append] at hd
  exact String.ext (List.append_cancel_left hd)

/-- C21: `Inspect()` of a symbol is ":" followed by its `Value` (":foo" for the
text `foo`), symbols with the same `Inspect()` have the same text, and the
`Value` of the String that `symbolToS` returns is `Inspect()` without its
first character. -/
theorem symbol_Inspect_colon_value {M : Type} (d : Externals M) (st : Store) (s t : symbol)
    (args : List (RubyObject M)) :
    s.Inspect = ":" ++ s.Value ∧
    Inspect d (RubyObject.ofSymbol s) = s.Inspect ∧
    (s.Inspect = t.Inspect → s.Value = t.Value) ∧
    (symbolToS st (⟨RubyObject.ofSymbol s⟩ : CallContext M) args).1 =
      (some (RubyObject.ofString st.nextPtr (String.mk (s.Inspect.data.drop 1))), none) ∧
    (⟨3, "foo"⟩ : symbol).Inspect = ":foo" := by
  refine ⟨rfl, rfl, fun h => string_colon_append_cancel _ _ h, ?_, by decide⟩
  have hdrop : String.mk (s.Inspect.data.drop 1) = s.Value := by
    simp only [symbol.Inspect, String.data_append]
    rfl
  rw [hdrop]
  rfl

/-- C22: for every call context and argument list `basicObjectInitialize`
returns the receiver of the context and a nil error; a `Self` wrapper is
returned as the wrapper itself, the same object. -/
theorem basicObjectInitialize_returns_receiver {M : Type} (context : CallContext M)
    (args : List (RubyObject M)) (p : Nat) (inner : RubyObject M) (name : String) :
    basicObjectInitialize context args = (some context.Receiver, none) ∧
    basicObjectInitialize (⟨RubyObject.ofSelf p inner name⟩ : CallContext M) args =
      (some (RubyObject.ofSelf p inner name), none) ∧
    (∀ r, (basicObjectInitialize context args).1 = some r →
      sameObject r context.Receiver = true) := by
  refine ⟨rfl, rfl, ?_⟩
  intro r hr
  have : r = context.Receiver := (Option.some.inj hr).symm
  rw [this]
  exact sameObject_refl _

/-- C24: with an empty argument list `objectSend`, `objectPublicSend` and
`objectRespondTo` return no value and the ArgumentError "wrong number of
arguments (given 0, expected at least 1)", whatever the receiver, the class
chain, the methods and `methodMissing` are, and the store is unchanged. -/
theorem send_family_rejects_empty_arguments {M : Type} (d : Externals M) (st : Store)
    (context : CallContext M) :
    objectSend d st context [] =
      ((none, some (NewArgumentError
        "wrong number of arguments (given 0, expected at least 1)")), st) ∧
    objectPublicSend d st context [] =
      ((none, some (NewArgumentError
        "wrong number of arguments (given 0, expected at least 1)")), st) ∧
    objectRespondTo d context [] =
      (none, some (NewArgumentError
        "wrong number of arguments (given 0, expected at least 1)")) ∧
    (NewArgumentError "wrong number of arguments (given 0, expected at least 1)").kind =
      ExceptionType.ArgumentError ∧
    (NewArgumentError "wrong number of arguments (given 0, expected at least 1)").base.Message =
      "wrong number of arguments (given 0, expected at least 1)" :=
  ⟨rfl, rfl, rfl, rfl, rfl⟩

/-- C25: `objectRespondTo` rejects malformed argument lists before any lookup.
A call with more than two arguments fails with the ArgumentError reporting the
count; a call with two arguments, a method name and a second argument that is
not a Boolean, fails with the `include_all` ArgumentError; no value is
returned in either case. The name conversion runs before the Boolean check:
for a first argument on which it fails, its error is what is returned. -/
theorem objectRespondTo_rejects_malformed_arguments {M : Type} (d : Externals M)
    (context : CallContext M) (arg0 arg1 : RubyObject M) (m : String)
    (hname : d.stringify arg0 = Except.ok m) (hbool : typeOf arg1 ≠ GoType.ptrBoolean) :
    objectRespondTo d context [arg0, arg1] =
      (none, some (NewArgumentError "include_all: wrong argument type (expected Boolean)")) ∧
    (∀ args : List (RubyObject M), 2 < args.length →
      objectRespondTo d context args =
        (none, some (NewArgumentError
          ("wrong number of arguments (given " ++ toString args.length ++
            ", expected at most 2)")))) ∧
    (∀ (bad : RubyObject M) (err : RubyError), d.stringify bad = Except.error err →
      objectRespondTo d context [bad, arg1] = (none, some err)) := by
  refine ⟨?_, ?_, ?_⟩
  · cases arg1 <;> first
      | exact absurd rfl hbool
      | simp [objectRespondTo, hname]
  · intro args hlen
    have h1 : ¬ args.length < 1 := by omega
    simp [objectRespondTo, h1, hlen]
  · intro bad err hbad
    simp [objectRespondTo, hbad]

/-- Witness for C25: `respond_to?(:foo, nil)` and a call with three arguments. -/
theorem objectRespondTo_rejects_malformed_arguments_witness :
    probe.stringify (RubyObject.ofSymbol ⟨3, "foo"⟩) = Except.ok "foo" ∧
    typeOf (NIL : RubyObject ProbeMethod) ≠ GoType.ptrBoolean ∧
    objectRespondTo probe probeContext [RubyObject.ofSymbol ⟨3, "foo"⟩, NIL] =
      (none, some (NewArgumentError "include_all: wrong argument type (expected Boolean)")) ∧
    objectRespondTo probe probeContext
        [RubyObject.ofSymbol ⟨3, "foo"⟩, TRUE, RubyObject.ofInteger 4 7] =
      (none, some (NewArgumentError "wrong number of arguments (given 3, expected at most 2)")) :=
  ⟨rfl, by decide,
    (objectRespondTo_rejects_malformed_arguments probe probeContext
      (RubyObject.ofSymbol ⟨3, "foo"⟩) NIL "foo" rfl (by decide)).1,
    rfl⟩

/-- C26: evaluation of `!=` on two `Object` instances and on `NIL`. The type
assertion to `*basicObject` fails at run time, whereas `==` on the same pairs
answers; only on two plain `basicObject` instances does `!=` return the
negation of `==`. -/
theorem basicObjectNotEqual_fails_outside_basicObject :
    basicObjectNotEqual (⟨RubyObject.Object 1⟩ : CallContext ProbeMethod)
      [RubyObject.Object 2] = none ∧
    basicObjectEqual (⟨RubyObject.Object 1⟩ : CallContext ProbeMethod)
      [RubyObject.Object 2] = some (some FALSE, none) ∧
    basicObjectNotEqual (⟨NIL⟩ : CallContext ProbeMethod) [NIL] = none ∧
    basicObjectEqual (⟨NIL⟩ : CallContext ProbeMethod) [NIL] = some (some TRUE, none) ∧
    basicObjectNotEqual (⟨RubyObject.basicObject 1⟩ : CallContext ProbeMethod)
      [RubyObject.Object 2] = none ∧
    basicObjectNotEqual (⟨RubyObject.basicObject 1⟩ : CallContext ProbeMethod)
      [RubyObject.basicObject 2] = some (some TRUE, none) ∧
    basicObjectNotEqual (⟨RubyObject.basicObject 1⟩ : CallContext ProbeMethod)
      [RubyObject.basicObject 1] = some (some FALSE, none) ∧
    basicObjectMethods.lookup "!=" =
      some (withArity 1 (publicMethod GoFunc.basicObjectNotEqual)) :=
  ⟨rfl, rfl, rfl, rfl, rfl, rfl, rfl, by decide⟩

/-- C27: `basicObjectMethodMissing` without arguments fails with
`NewWrongNumberOfArgumentsError(1, 0)`, whose message is "wrong number of
arguments (given 0, expected 1)"; with a first argument that is not a Symbol it
fails with a TypeError whose message is "no implicit conversion of " followed
by the type name of the argument and " into symbol". Neither case is a
run-time failure or a NoMethodError. -/
theorem basicObjectMethodMissing_validates_arguments {M : Type} (d : Externals M)
    (context : CallContext M) (arg0 : RubyObject M) (rest : List (RubyObject M))
    (hkind : typeOf arg0 ≠ GoType.ptrSymbol) :
    basicObjectMethodMissing d context [] =
      some (none, some (NewWrongNumberOfArgumentsError 1 0)) ∧
    (NewWrongNumberOfArgumentsError 1 0).kind = ExceptionType.ArgumentError ∧
    (NewWrongNumberOfArgumentsError 1 0).base.Message =
      "wrong number of arguments (given 0, expected 1)" ∧
    basicObjectMethodMissing d context (arg0 :: rest) =
      some (none, some (NewImplicitConversionTypeError GoType.ptrSymbol (typeOf arg0))) ∧
    (NewImplicitConversionTypeError GoType.ptrSymbol (typeOf arg0)).kind =
      ExceptionType.TypeError ∧
    (NewImplicitConversionTypeError GoType.ptrSymbol (typeOf arg0)).base.Message =
      "no implicit conversion of " ++ (typeOf arg0).Name ++ " into symbol" := by
  refine ⟨rfl, rfl, rfl, ?_, rfl, ?_⟩
  · cases arg0 <;> first
      | exact absurd rfl hkind
      | rfl
  · show "no implicit conversion of " ++ (typeOf arg0).Name ++ " into " ++ "symbol" = _
    rw [String.append_assoc _ " into " "symbol"]
    rfl

/-- Witness for C27: `method_missing` called with the String "foo". -/
theorem basicObjectMethodMissing_validates_arguments_witness :
    typeOf (RubyObject.ofString 3 "foo" : RubyObject ProbeMethod) ≠ GoType.ptrSymbol ∧
    basicObjectMethodMissing probe probeContext [RubyObject.ofString 3 "foo"] =
      some (none, some (NewImplicitConversionTypeError GoType.ptrSymbol GoType.ptrString)) ∧
    (NewImplicitConversionTypeError GoType.ptrSymbol GoType.ptrString).base.Message =
      "no implicit conversion of String into symbol" ∧
    basicObjectMethodMissing probe probeContext [] =
      some (none, some (NewWrongNumberOfArgumentsError 1 0)) :=
  ⟨by decide,
    (basicObjectMethodMissing_validates_arguments probe probeContext
      (RubyObject.ofString 3 "foo") [] (by decide)).2.2.2.1,
    rfl, rfl⟩

/-- C28: `basicObjectNot` returns FALSE and a nil error for every receiver and
argument list, in particular for the receivers `NIL` and `FALSE`; `!` is bound
to it in `basicObjectMethods` and neither `nilMethods` nor `objectMethods`
binds `!`. -/
theorem basicObjectNot_returns_FALSE {M : Type} (context : CallContext M)
    (args : List (RubyObject M)) :
    basicObjectNot context args = (some FALSE, none) ∧
    basicObjectNot (⟨NIL⟩ : CallContext M) args = (some FALSE, none) ∧
    basicObjectNot (⟨FALSE⟩ : CallContext M) args = (some FALSE, none) ∧
    basicObjectMethods.lookup "!" = some (withArity 0 (publicMethod GoFunc.basicObjectNot)) ∧
    nilMethods.lookup "!" = none ∧
    objectMethods.lookup "!" = none :=
  ⟨rfl, rfl, rfl, by decide, by decide, by decide⟩


/-! ## `rubyEqual` as a relation -/

theorem rubyEqual_refl {M : Type} (a : RubyObject M) : rubyEqual a a = true := by
  cases a <;> simp [rubyEqual, sameObject]

theorem rubyEqual_comm {M : Type} (a b : RubyObject M) : rubyEqual a b = rubyEqual b a := by
  cases a <;> cases b <;> simp [rubyEqual, sameObject] <;> exact eq_comm

theorem rubyEqual_trans {M : Type} (a b c : RubyObject M) (hab : rubyEqual a b = true)
    (hbc : rubyEqual b c = true) : rubyEqual a c = true := by
  cases a <;> cases b <;> simp [rubyEqual, sameObject] at hab <;>
    cases c <;> simp [rubyEqual, sameObject] at hbc ⊢ <;> simp_all

/-- C29: `rubyEqual` is an equivalence relation on objects of every kind: it is
reflexive, symmetric and transitive. -/
theorem rubyEqual_equivalence {M : Type} (a b c : RubyObject M) :
    rubyEqual a a = true ∧
    rubyEqual a b = rubyEqual b a ∧
    (rubyEqual a b = true → rubyEqual b c = true → rubyEqual a c = true) ∧
    (typeOf a ≠ typeOf b → rubyEqual a b = false ∧ rubyEqual b a = false) := by
  refine ⟨rubyEqual_refl a, rubyEqual_comm a b, rubyEqual_trans a b c, ?_⟩
  intro hty
  have h1 : rubyEqual a b = false := by
    cases a <;> cases b <;> simp [typeOf] at hty <;> simp [rubyEqual, sameObject]
  exact ⟨h1, by rw [← rubyEqual_comm]; exact h1⟩


/-! ## `Symbol.all_symbols` -/

theorem symbolAllSymbols_range_spec {M : Type} (entries : List (String × symbol)) :
    ∀ pre : List (Option (RubyObject M)),
      symbolAllSymbols.range entries (pre ++ List.replicate entries.length none, pre.length) =
        (pre ++ entries.map (fun e => some (RubyObject.ofSymbol e.2)),
          pre.length + entries.length) := by
  induction entries with
  | nil =>
    intro pre
    simp [symbolAllSymbols.range]
  | cons hd rest ih =>
    obtain ⟨k, sym⟩ := hd
    intro pre
    have hset : (pre ++ List.replicate (rest.length + 1) (none : Option (RubyObject M))).set
          pre.length (some (RubyObject.ofSymbol sym)) =
        (pre ++ [some (RubyObject.ofSymbol sym)]) ++ List.replicate rest.length none := by
      simp [List.set_append, List.replicate_succ]
    have hstep := ih (pre ++ [some (RubyObject.ofSymbol sym)])
    simp only [List.length_append, List.length_singleton] at hstep
    have hunfold : symbolAllSymbols.range ((k, sym) :: rest)
          (pre ++ List.replicate ((k, sym) :: rest).length none, pre.length) =
        symbolAllSymbols.range rest
          ((pre ++ List.replicate (rest.length + 1) (none : Option (RubyObject M))).set
            pre.length (some (RubyObject.ofSymbol sym)), pre.length + 1) := rfl
    rw [hunfold, hset, hstep]
    refine Prod.ext ?_ ?_
    · simp
    · simp only [List.length_cons]
      omega

theorem symbolAllSymbols_slots_eq {M : Type} (st : Store) :
    (symbolAllSymbols.slots st : List (Option (RubyObject M))) =
      st.allSymbols.map (fun e => some (RubyObject.ofSymbol e.2)) := by
  have h := @symbolAllSymbols_range_spec M st.allSymbols []
  simp only [List.nil_append, List.length_nil] at h
  simp [symbolAllSymbols.slots, h]

theorem lookup_eq_none_of_not_mem_keys (l : List (String × symbol)) (k : String)
    (h : l.lookup k = none) : k ∉ l.map Prod.fst := by
  induction l with
  | nil => simp
  | cons hd t ih =>
    obtain ⟨a, b⟩ := hd
    by_cases hka : k = a
    · subst hka
      simp [List.lookup_cons] at h
    · have hbeq : (k == a) = false := by simpa using hka
      simp only [List.lookup_cons, hbeq] at h
      simp only [List.map_cons, List.mem_cons, not_or]
      exact ⟨hka, ih h⟩

theorem NewSymbol_uniqueKeys (st : Store) (v : String) (hkeys : st.uniqueKeys) :
    (NewSymbol st v).2.uniqueKeys := by
  cases h : st.allSymbols.lookup v with
  | some s0 =>
    rw [NewSymbol_of_some st v s0 h]
    exact hkeys
  | none =>
    rw [NewSymbol_of_none st v h]
    exact List.nodup_cons.mpr ⟨lookup_eq_none_of_not_mem_keys _ v h, hkeys⟩

theorem uniqueKeys_of_empty_table (n : Nat) : (⟨n, []⟩ : Store).uniqueKeys :=
  List.nodup_nil


theorem filterMap_some_ofSymbol {M : Type} (l : List (String × symbol)) :
    List.filterMap (fun e => some (RubyObject.ofSymbol e.2 : RubyObject M)) l =
      l.map (fun e => RubyObject.ofSymbol e.2) := by
  induction l with
  | nil => rfl
  | cons hd t ih => simp [List.filterMap_cons, ih]

theorem symbolAllSymbols_eq {M : Type} (st : Store) (context : CallContext M)
    (args : List (RubyObject M)) :
    symbolAllSymbols st context args =
      ((some (RubyObject.ofArray st.nextPtr
          (st.allSymbols.map (fun e => RubyObject.ofSymbol e.2))), none),
        ⟨st.nextPtr + 1, st.allSymbols⟩) := by
  simp [symbolAllSymbols, symbolAllSymbols_slots_eq, Store.alloc, List.filterMap_map,
    filterMap_some_ofSymbol]

theorem entry_value_of_mem (st : Store) (hwf : st.wellFormed) (hkeys : st.uniqueKeys)
    (k : String) (sym : symbol) (hmem : (k, sym) ∈ st.allSymbols) :
    st.allSymbols.lookup k = some sym ∧ sym.Value = k ∧ sym.ptr < st.nextPtr := by
  have hl := (lookup_eq_some_iff_mem st.allSymbols hkeys k sym).mpr hmem
  exact ⟨hl, hwf.1 k sym hl⟩

/-- C30: in a reachable store `symbolAllSymbols` leaves no slot of its slice
nil and returns, without error, an Array with one element per interned text;
a Symbol is an element exactly when the intern table maps some text to it, no
Symbol occurs twice, the intern table is unchanged, the symbol returned by
`NewSymbol` is an element afterwards, and a Symbol allocated at a fresh address
outside `NewSymbol` is not an element. -/
theorem symbolAllSymbols_lists_interned_symbols {M : Type} (st : Store)
    (context : CallContext M) (args : List (RubyObject M)) (text : String)
    (hwf : st.wellFormed) (hkeys : st.uniqueKeys) :
    (symbolAllSymbols.slots st : List (Option (RubyObject M))) =
      st.allSymbols.map (fun e => some (RubyObject.ofSymbol e.2)) ∧
    symbolAllSymbols st context args =
      ((some (RubyObject.ofArray st.nextPtr
          (st.allSymbols.map (fun e => RubyObject.ofSymbol e.2))), none),
        ⟨st.nextPtr + 1, st.allSymbols⟩) ∧
    (st.allSymbols.map (fun e => (RubyObject.ofSymbol e.2 : RubyObject M))).length =
      (st.allSymbols.map Prod.fst).length ∧
    (∀ sym : symbol,
      (RubyObject.ofSymbol sym : RubyObject M) ∈
          st.allSymbols.map (fun e => RubyObject.ofSymbol e.2) ↔
        ∃ k, st.allSymbols.lookup k = some sym) ∧
    (st.allSymbols.map (fun e => (RubyObject.ofSymbol e.2 : RubyObject M))).Nodup ∧
    (RubyObject.ofSymbol (NewSymbol st text).1 : RubyObject M) ∈
      (NewSymbol st text).2.allSymbols.map (fun e => RubyObject.ofSymbol e.2) ∧
    (RubyObject.ofSymbol ⟨st.nextPtr, text⟩ : RubyObject M) ∉
      st.allSymbols.map (fun e => RubyObject.ofSymbol e.2) := by
  refine ⟨symbolAllSymbols_slots_eq st, symbolAllSymbols_eq st context args, by simp,
    ?_, ?_, ?_, ?_⟩
  · intro sym
    constructor
    · intro h
      obtain ⟨e, he, heq⟩ := List.mem_map.mp h
      obtain ⟨k, s0⟩ := e
      have hs : s0 = sym := RubyObject.ofSymbol.inj heq
      subst hs
      exact ⟨k, (entry_value_of_mem st hwf hkeys k s0 he).1⟩
    · rintro ⟨k, hk⟩
      have hmem := (lookup_eq_some_iff_mem st.allSymbols hkeys k sym).mp hk
      exact List.mem_map.mpr ⟨(k, sym), hmem, rfl⟩
  · refine List.Nodup.map_on ?_ (List.Nodup.of_map Prod.fst hkeys)
    rintro ⟨k1, s1⟩ h1 ⟨k2, s2⟩ h2 heq
    have hs : s1 = s2 := RubyObject.ofSymbol.inj heq
    subst hs
    have e1 := (entry_value_of_mem st hwf hkeys k1 s1 h1).2.1
    have e2 := (entry_value_of_mem st hwf hkeys k2 s1 h2).2.1
    rw [← e1, ← e2]
  · have hself := NewSymbol_lookup_self st text
    have hk := NewSymbol_uniqueKeys st text hkeys
    have hmem := (lookup_eq_some_iff_mem _ hk text _).mp hself
    exact List.mem_map.mpr ⟨(text, (NewSymbol st text).1), hmem, rfl⟩
  · intro h
    obtain ⟨e, he, heq⟩ := List.mem_map.mp h
    obtain ⟨k, s0⟩ := e
    have hs : s0 = ⟨st.nextPtr, text⟩ := RubyObject.ofSymbol.inj heq
    have hlt := (entry_value_of_mem st hwf hkeys k s0 he).2.2
    rw [hs] at hlt
    exact Nat.lt_irrefl _ hlt

/-- Witness for C30: the store in which `foo` is interned. -/
theorem symbolAllSymbols_lists_interned_symbols_witness :
    (NewSymbol probeStore "foo").2.wellFormed ∧
    (NewSymbol probeStore "foo").2.uniqueKeys ∧
    symbolAllSymbols (NewSymbol probeStore "foo").2 probeContext [] =
      ((some (RubyObject.ofArray 11 [RubyObject.ofSymbol ⟨10, "foo"⟩]), none),
        ⟨12, [("foo", ⟨10, "foo"⟩)]⟩) ∧
    (symbolAllSymbols.slots (NewSymbol probeStore "foo").2 :
        List (Option (RubyObject ProbeMethod))) =
      (NewSymbol probeStore "foo").2.allSymbols.map (fun e => some (RubyObject.ofSymbol e.2)) :=
  ⟨NewSymbol_wellFormed probeStore "foo" (wellFormed_of_empty_table 10),
    NewSymbol_uniqueKeys probeStore "foo" (uniqueKeys_of_empty_table 10),
    rfl,
    (symbolAllSymbols_lists_interned_symbols (NewSymbol probeStore "foo").2 probeContext []
      "bar" (NewSymbol_wellFormed probeStore "foo" (wellFormed_of_empty_table 10))
      (NewSymbol_uniqueKeys probeStore "foo" (uniqueKeys_of_empty_table 10))).1⟩

/-! ## `require` -/

/-- C23: `require` is load-once, whatever the evaluation callback does to the
shared environment. When the resolved absolute path is already an element of
`$LOADED_FEATURES` the result is FALSE, the callback is not called and the
environment is unchanged. When it is not yet an element and the file loads and
evaluates without error, the callback is called exactly once, with the parsed
program and the environment as it was, the absolute path is appended at the
end of the list that the evaluation left (the old list when the evaluation did
not touch it), the result is TRUE, and a further `require` of the same path
returns FALSE without a callback call. The closing equations evaluate the
cases of the tests (a missing suffix with an existing list, an already loaded
file) and the file "a" whose evaluation requires the file "b". -/
theorem kernelRequire_loads_once {M P E : Type} (host : RequireHost M P E)
    (env : RequireEnv E) (path : String) :
    (resolveFeature host path ∈ env.loadedFeatures →
      kernelRequire host env path = ((some FALSE, none), env, [])) ∧
    (resolveFeature host path ∉ env.loadedFeatures →
      ∀ (program : P) (v : Option (RubyObject M)) (env1 : RequireEnv E),
        host.load (resolveFeature host path) = Except.ok program →
        host.eval program env = ((v, none), env1) →
          kernelRequire host env path =
            ((some TRUE, none),
              ⟨env1.loadedFeatures ++ [resolveFeature host path], env1.globals⟩,
              [program]) ∧
          (env1.loadedFeatures = env.loadedFeatures →
            (kernelRequire host env path).2.1.loadedFeatures =
              env.loadedFeatures ++ [resolveFeature host path]) ∧
          kernelRequire host (kernelRequire host env path).2.1 path =
            ((some FALSE, none), (kernelRequire host env path).2.1, [])) ∧
    kernelRequire probeHost ⟨["foo"], ()⟩ "testfile" =
      ((some TRUE, none), ⟨["foo", "/work/testfile.rb"], ()⟩, ["x = 5"]) ∧
    kernelRequire probeHost ⟨["/work/testfile.rb"], ()⟩ "testfile.rb" =
      ((some FALSE, none), ⟨["/work/testfile.rb"], ()⟩, []) ∧
    kernelRequire probeNestedHost ⟨["foo"], ()⟩ "a" =
      ((some TRUE, none), ⟨["foo", "/work/b.rb", "/work/a.rb"], ()⟩, ["require b"]) ∧
    kernelRequire probeNestedHost ⟨["foo", "/work/b.rb"], ()⟩ "a" =
      ((some TRUE, none), ⟨["foo", "/work/b.rb", "/work/a.rb"], ()⟩, ["require b"]) := by
  refine ⟨?_, ?_, rfl, rfl, rfl, rfl⟩
  · intro hmem
    simp [kernelRequire, hmem]
  · intro hnot program v env1 hload heval
    have h1 : kernelRequire host env path =
        ((some TRUE, none),
          ⟨env1.loadedFeatures ++ [resolveFeature host path], env1.globals⟩,
          [program]) := by
      simp [kernelRequire, hnot, hload, heval]
    refine ⟨h1, ?_, ?_⟩
    · intro hsame
      rw [h1, ← hsame]
    · rw [h1]
      simp [kernelRequire]

end GoRuby
